import Mathlib

/-!
# Crystal-ball lottery (`indexapi.js`): ticket allocation, winner selection, ball ledger, payout

A shallow embedding of the distribution engine of `src/indexapi.js`.

Modelling conventions.

* A JavaScript object used as a dictionary (`tickets`, `crystalBallWins`) is an association
  list with pairwise distinct keys, kept in property order.  Addresses are strings that are
  not canonical array indices, so property order is insertion order: assigning to an existing
  key keeps its position, assigning to a new key appends, `delete` removes.
* A JavaScript number is the rational it stands for; `BigInt`s are integers.  In the
  selection (`totalTickets`, `selectWinner`, `selectLoop`) every arithmetic result is
  rounded to the nearest double (`roundDouble`: binary64, ties to even, subnormals
  included).  The payout arithmetic is taken as exact, as the payout claims take it.
  Infinities and `NaN` are not modelled.
* Every answer of the outside world during one round (the holder list, the two
  `Math.random()` draws, the RPC answers, whether the chat and the database calls throw) is a
  field of `Env`; a `none` answer stands for a call that throws.
* Calls to collaborators are recorded in a trace of `Effect`s, in program order.
-/

namespace Lakibot

/-- A chain address. -/
abbrev Address := String

/-- A JavaScript dictionary object with string keys, in property order. -/
abbrev Obj (β : Type) := List (Address × β)

namespace Obj

variable {β : Type}

/-- Property read `o[k]` (`none` is `undefined`). -/
def get (o : Obj β) (k : Address) : Option β :=
  match o with
  | [] => none
  | (k', v) :: rest => if k' = k then some v else get rest k

/-- Property write `o[k] = v`: an existing key keeps its position, a new key is appended. -/
def set (o : Obj β) (k : Address) (v : β) : Obj β :=
  match o with
  | [] => [(k, v)]
  | (k', v') :: rest => if k' = k then (k, v) :: rest else (k', v') :: set rest k v

/-- Property removal `delete o[k]`. -/
def delete (o : Obj β) (k : Address) : Obj β :=
  match o with
  | [] => []
  | (k', v') :: rest => if k' = k then delete rest k else (k', v') :: delete rest k

/-- Own property names, `Object.keys(o)`. -/
def keys (o : Obj β) : List Address := o.map Prod.fst

/-- Own property values, `Object.values(o)`. -/
def values (o : Obj β) : List β := o.map Prod.snd

end Obj

/-- One element of the holder list returned by `fetchTokenHolders`. -/
structure Holder where
  address : Address
  balance : ℚ
deriving DecidableEq

/-- The function `calculateTickets(holders)`: one ticket per token, holders with a balance
`<= 0` skipped. -/
def calculateTickets (holders : List Holder) : Obj ℚ :=
  holders.foldl
    (fun tickets holder =>
      if holder.balance ≤ 0 then tickets else Obj.set tickets holder.address holder.balance)
    []

/-- Nearest integer, a half going to the even neighbour. -/
def roundHalfEven (y : ℚ) : ℤ :=
  if y - ⌊y⌋ < 1 / 2 then ⌊y⌋
  else if 1 / 2 < y - ⌊y⌋ then ⌊y⌋ + 1
  else if ⌊y⌋ % 2 = 0 then ⌊y⌋ else ⌊y⌋ + 1

/-- The double that a JavaScript arithmetic operation returns for the exact result `x`:
the nearest multiple of the spacing `2 ^ (e - 52)` of the doubles around `x`, where `e` is
the binary exponent of `x` and at least `-1022`; a tie goes to the even multiple.  (A result
of magnitude `2 ^ 1024` or more would be an infinity, which is not modelled.) -/
def roundDouble (x : ℚ) : ℚ :=
  if x = 0 then 0
  else
    (roundHalfEven (x / 2 ^ (max (Int.log 2 |x|) (-1022) - 52)) : ℚ) *
      2 ^ (max (Int.log 2 |x|) (-1022) - 52)

/-- Sum of the ticket counts, `Object.values(tickets).reduce((acc, count) => acc + count, 0)`,
every sum rounded to a double. -/
def totalTickets (tickets : Obj ℚ) : ℚ :=
  (Obj.values tickets).foldl (fun acc count => roundDouble (acc + count)) 0

/-- The `for` loop of `selectWinner`: `randomPosition -= count`, rounded to a double, and
the first address at which the position is `<= 0` is returned; falling off the end returns
`undefined`. -/
def selectLoop (entries : Obj ℚ) (randomPosition : ℚ) : Option Address :=
  match entries with
  | [] => none
  | (address, count) :: rest =>
    if roundDouble (randomPosition - count) ≤ 0 then some address
    else selectLoop rest (roundDouble (randomPosition - count))

/-- The function `selectWinner(tickets)`, with the value of `Math.random()` as the argument
`rand`; the position is the double `rand * totalTickets`.  `none` stands for both `null`
and `undefined`. -/
def selectWinner (tickets : Obj ℚ) (rand : ℚ) : Option Address :=
  if totalTickets tickets = 0 then none
  else selectLoop tickets (roundDouble (rand * totalTickets tickets))

/-- Truthiness of a number-valued property read: `undefined` and `0` are falsy. -/
def truthyNum (v : Option ℤ) : Bool :=
  match v with
  | none => false
  | some n => decide (n ≠ 0)

/-- Truthiness of a string-valued result: `null` and the empty string are falsy. -/
def truthyStr (v : Option String) : Bool :=
  match v with
  | none => false
  | some h => decide (h ≠ "")

/-- The expression `x || 0` on a number-valued property read. -/
def orZero (v : Option ℤ) : ℤ :=
  match v with
  | none => 0
  | some n => n

/-- The function `Math.round` on an exact value: nearest integer, halves upwards. -/
def mathRound (x : ℚ) : ℤ := ⌊x + 1 / 2⌋

/-- The expression `parseFloat(x.toFixed(2))` on an exact value: nearest multiple of `0.01`,
halves away from zero. -/
def toFixed2 (x : ℚ) : ℚ :=
  if x < 0 then -((⌊-x * 100 + 1 / 2⌋ : ℤ) : ℚ) / 100 else ((⌊x * 100 + 1 / 2⌋ : ℤ) : ℚ) / 100

/-- An element of `winnersHistory`. -/
structure WinnerRecord where
  winner : Address
  percentage : ℚ
deriving DecidableEq

/-- A document of the collection `crystalBallWins`; the percentage `none` is the empty
string `''`. -/
structure Doc where
  address : Address
  wins : ℤ
  percentage : Option ℚ
deriving DecidableEq

/-- The transaction object built by `sendTransaction`. -/
structure Transaction where
  /-- The field `to`. -/
  toAddress : Address
  value : ℤ
  gas : ℕ
  gasPrice : ℕ
  nonce : ℕ
  chainId : ℕ
deriving DecidableEq

/-- The caption sent by `sendAnnouncement`. -/
inductive Announcement where
  /-- Cases 1 and 2: the winner now holds `count` crystal balls. -/
  | balls (winner : Address) (count : ℤ)
  /-- Case 3 with a transaction id: the prize percentage, printed with `toFixed(2)`. -/
  | prize (winner : Address) (percentage : ℚ) (txId : String)
  /-- Case 3 without a transaction id: "There was an issue with the transaction". -/
  | issue (winner : Address)
deriving DecidableEq

/-- A call made to a collaborator, or the entry into `sendTransaction`. -/
inductive Effect where
  /-- Entering `sendTransaction(winner, prizePercentage)`. -/
  | sendTransaction (winner : Address) (prizePercentage : ℚ)
  /-- The RPC call `web3.eth.getBalance`. -/
  | getBalance
  /-- The chat message `bot.sendMessage` of the zero-balance notice. -/
  | sendMessage
  /-- The RPC call `web3.eth.getGasPrice`. -/
  | getGasPrice
  /-- The RPC call `web3.eth.getTransactionCount`. -/
  | getTransactionCount
  /-- The call `web3.eth.accounts.signTransaction` on the built transaction. -/
  | signTransaction (tx : Transaction)
  /-- The RPC call `web3.eth.sendSignedTransaction`. -/
  | sendSignedTransaction (tx : Transaction)
  /-- The chat message `bot.sendPhoto` of `sendAnnouncement`. -/
  | sendPhoto (a : Announcement)
  /-- Entering `saveCrystalBallWins()`. -/
  | saveCrystalBallWins
deriving DecidableEq

/-- How the two database calls of `saveCrystalBallWins` end. -/
inductive SaveOutcome where
  /-- The call `deleteMany` throws: the collection is untouched. -/
  | deleteThrows
  /-- The call `insertMany` throws after the collection was cleared. -/
  | insertThrows
  /-- Both calls succeed. -/
  | ok
deriving DecidableEq

/-- The answers of the outside world during one round. -/
structure Env where
  /-- The result of `fetchTokenHolders()` (the empty list when the fetch failed). -/
  holders : List Holder
  /-- The value of `Math.random()` in `selectWinner`. -/
  rand : ℚ
  /-- The value of `Math.random()` in the prize percentage. -/
  prizeRand : ℚ
  /-- The function `web3.utils.toChecksumAddress`; `none` when it throws. -/
  toChecksumAddress : Address → Option Address
  /-- The custodial balance `BigInt(await web3.eth.getBalance(..))`. -/
  balance : Option ℕ
  /-- The gas price `BigInt(await web3.eth.getGasPrice())`. -/
  gasPrice : Option ℕ
  /-- The nonce `BigInt(await web3.eth.getTransactionCount(..))`. -/
  nonce : Option ℕ
  /-- Whether `signTransaction` returns. -/
  signOk : Bool
  /-- The field `receipt.transactionHash` of `sendSignedTransaction`. -/
  transactionHash : Option String
  /-- Whether `bot.sendPhoto` returns. -/
  sendPhotoOk : Bool
  /-- How the database calls of the save end. -/
  save : SaveOutcome

/-- The process-wide state together with the persisted collection. -/
structure State where
  crystalBallWins : Obj ℤ
  /-- The global `winnersHistory`.  It is never declared: it exists once `loadCrystalBallWins`
  has assigned it, and is `none` before (reading it then throws a `ReferenceError`). -/
  winnersHistory : Option (List WinnerRecord)
  /-- The global `prizePercentage`, `none` while it is `undefined`. -/
  prizePercentage : Option ℚ
  /-- The content of the collection `crystalBallWins`. -/
  collection : List Doc

/-- The function `filterBlacklistedAddresses()`.  The argument `blacklist` is the array
`process.env.BLACKLISTED_ADDRESSES.split(',')` of the configured variable, with every entry
trimmed (the `address.trim()` of the loop body). -/
def filterBlacklistedAddresses (blacklist : List Address) (wins : Obj ℤ) : Obj ℤ :=
  blacklist.foldl
    (fun w address => if truthyNum (Obj.get w address) then Obj.delete w address else w)
    wins

/-- The body of `data.forEach` in `loadCrystalBallWins`. -/
def loadItem (acc : Obj ℤ × List WinnerRecord) (item : Doc) : Obj ℤ × List WinnerRecord :=
  (Obj.set acc.1 item.address item.wins,
   match item.percentage with
   | some p => if p ≠ 0 then acc.2 ++ [⟨item.address, p⟩] else acc.2
   | none => acc.2)

/-- The function `loadCrystalBallWins()`.  The argument `data` is the answer of
`collection.find({}).toArray()`, `none` when it throws (nothing is assigned then). -/
def loadCrystalBallWins (blacklist : List Address) (data : Option (List Doc)) (s : State) :
    State :=
  match data with
  | none => s
  | some items =>
    let loaded := items.foldl loadItem ([], [])
    { s with
      crystalBallWins := filterBlacklistedAddresses blacklist loaded.1
      winnersHistory := some loaded.2 }

/-- The array `data` built by `saveCrystalBallWins`: one document per ledger entry, with the
percentage of the first history record of that address, or `''`. -/
def saveData (wins : Obj ℤ) (history : List WinnerRecord) : List Doc :=
  wins.map fun entry =>
    { address := entry.1
      wins := entry.2
      percentage :=
        match history.find? (fun w => decide (w.winner = entry.1)) with
        | some r => if r.percentage ≠ 0 then some r.percentage else none
        | none => none }

/-- The function `saveCrystalBallWins()`: clear the collection, then build and insert the
new documents; an error is caught and logged.  While `winnersHistory` is unassigned,
building the documents throws after the collection was cleared (with an empty ledger there
is nothing to build and nothing to insert). -/
def saveCrystalBallWins (outcome : SaveOutcome) (s : State) : State :=
  match outcome with
  | .deleteThrows => s
  | .insertThrows => { s with collection := [] }
  | .ok =>
    match s.winnersHistory with
    | some history => { s with collection := saveData s.crystalBallWins history }
    | none => { s with collection := [] }

/-- The function `sendAnnouncement(winner, ballsCount, prizePercentage, txId)`.  The result
is the trace and whether the call returned (`false`: it threw). -/
def sendAnnouncement (sendPhotoOk : Bool) (winner : Address) (ballsCount : ℤ)
    (prizePercentage : Option ℚ) (txId : Option String) : Bool × List Effect :=
  if ballsCount = 1 ∨ ballsCount = 2 then
    (sendPhotoOk, [.sendPhoto (.balls winner ballsCount)])
  else if ballsCount = 3 then
    match txId with
    | some h =>
      if h ≠ "" then
        match prizePercentage with
        | some p => (sendPhotoOk, [.sendPhoto (.prize winner (toFixed2 p) h)])
        | none => (false, [])
      else (sendPhotoOk, [.sendPhoto (.issue winner)])
    | none => (sendPhotoOk, [.sendPhoto (.issue winner)])
  else (true, [])

/-- The function `sendTransaction(winner, prizePercentage)`: the returned transaction hash
(`none` is `null`) and the trace.  Every throw is caught and turned into `null`. -/
def sendTransaction (env : Env) (winner : Address) (prizePercentage : ℚ) :
    Option String × List Effect :=
  match env.toChecksumAddress winner with
  | none => (none, [])
  | some winnerChecksummed =>
    match env.balance with
    | none => (none, [.getBalance])
    | some balance =>
      if balance = 0 then (none, [.getBalance, .sendMessage])
      else
        match env.gasPrice with
        | none => (none, [.getBalance, .getGasPrice])
        | some gasPrice =>
          let estimatedGas : ℕ := 21000
          let prizeAmount : ℤ := mathRound (prizePercentage * (balance : ℚ))
          let gasCost : ℤ := ((estimatedGas * gasPrice : ℕ) : ℤ)
          let valueToSend : ℤ := prizeAmount - gasCost
          if valueToSend ≤ 0 then (none, [.getBalance, .getGasPrice])
          else
            match env.nonce with
            | none => (none, [.getBalance, .getGasPrice, .getTransactionCount])
            | some nonce =>
              let transaction : Transaction :=
                { toAddress := winnerChecksummed
                  value := valueToSend
                  gas := estimatedGas
                  gasPrice := gasPrice
                  nonce := nonce
                  chainId := 56 }
              if env.signOk then
                match env.transactionHash with
                | none =>
                  (none, [.getBalance, .getGasPrice, .getTransactionCount,
                    .signTransaction transaction, .sendSignedTransaction transaction])
                | some h =>
                  (some h, [.getBalance, .getGasPrice, .getTransactionCount,
                    .signTransaction transaction, .sendSignedTransaction transaction])
              else
                (none, [.getBalance, .getGasPrice, .getTransactionCount,
                  .signTransaction transaction])

/-- Lines 316 to 344 of `distributeCrystalBall`: the ledger update for the selected winner,
the payout at the third ball, the announcement and the save. -/
def awardBall (env : Env) (winner : Address) (s : State) : State × List Effect :=
  let newCount : ℤ := orZero (Obj.get s.crystalBallWins winner) + 1
  let s1 : State := { s with crystalBallWins := Obj.set s.crystalBallWins winner newCount }
  if newCount = 3 then
    let percentage : ℚ := env.prizeRand * (100 - 25) + 25
    let s2 : State :=
      { s1 with
        crystalBallWins := Obj.set s1.crystalBallWins winner 0
        prizePercentage := some percentage }
    let sent := sendTransaction env winner (percentage / 100)
    let announced :=
      sendAnnouncement env.sendPhotoOk winner 3 (some percentage)
        (if truthyStr sent.1 then sent.1 else none)
    let s3 : State :=
      if announced.1 then
        match s2.winnersHistory with
        | some history =>
          { s2 with winnersHistory := some (history ++ [⟨winner, toFixed2 percentage⟩]) }
        | none => s2
      else s2
    (saveCrystalBallWins env.save s3,
      [Effect.sendTransaction winner (percentage / 100)] ++ sent.2 ++ announced.2
        ++ [Effect.saveCrystalBallWins])
  else
    let announced := sendAnnouncement env.sendPhotoOk winner newCount s1.prizePercentage none
    if announced.1 then
      (saveCrystalBallWins env.save s1, announced.2 ++ [Effect.saveCrystalBallWins])
    else (s1, announced.2)

/-- The function `distributeCrystalBall()`: one round.  The result is the state after the
round and the trace of the round. -/
def distributeCrystalBall (env : Env) (s : State) : State × List Effect :=
  if env.holders.length = 0 then (s, [])
  else
    let tickets := calculateTickets env.holders
    if (Obj.keys tickets).length = 0 then (s, [])
    else
      match selectWinner tickets env.rand with
      | none => (s, [])
      | some winner => if winner = "" then (s, []) else awardBall env winner s

/-- The ledger predicate of the data model: every stored count is `0`, `1` or `2`. -/
def LedgerOk (wins : Obj ℤ) : Prop := ∀ e ∈ wins, e.2 = 0 ∨ e.2 = 1 ∨ e.2 = 2

instance (wins : Obj ℤ) : Decidable (LedgerOk wins) := by
  unfold LedgerOk
  infer_instance

/-- The total of the specification (section 4.2), "sum of all weights", on exact numbers. -/
def specTotal (tickets : Obj ℚ) : ℚ :=
  (Obj.values tickets).foldl (fun acc count => acc + count) 0

/-- The loop of the specification (section 4.2) on exact numbers: "maintain a running
remainder starting at r, subtract each entry's weight in turn, and return the address at
which the remainder becomes <= 0". -/
def specSelectLoop (entries : Obj ℚ) (r : ℚ) : Option Address :=
  match entries with
  | [] => none
  | (address, count) :: rest =>
    if r - count ≤ 0 then some address else specSelectLoop rest (r - count)

/-- No addition of `totalTickets` rounds: starting from `acc`, every running sum of the
values is a double. -/
def SumExact (values : List ℚ) (acc : ℚ) : Prop :=
  match values with
  | [] => True
  | count :: rest => roundDouble (acc + count) = acc + count ∧ SumExact rest (acc + count)

/-- No subtraction of `selectLoop` rounds where the loop goes on: starting from
`randomPosition`, every positive running remainder is a double. -/
def LoopExact (entries : Obj ℚ) (randomPosition : ℚ) : Prop :=
  match entries with
  | [] => True
  | (_, count) :: rest =>
    0 < randomPosition - count →
      roundDouble (randomPosition - count) = randomPosition - count ∧
        LoopExact rest (randomPosition - count)

instance SumExact.instDecidable :
    (values : List ℚ) → (acc : ℚ) → Decidable (SumExact values acc)
  | [], _ => isTrue trivial
  | count :: rest, acc =>
    have : Decidable (SumExact rest (acc + count)) := SumExact.instDecidable rest (acc + count)
    inferInstanceAs
      (Decidable (roundDouble (acc + count) = acc + count ∧ SumExact rest (acc + count)))

instance LoopExact.instDecidable :
    (entries : Obj ℚ) → (r : ℚ) → Decidable (LoopExact entries r)
  | [], _ => isTrue trivial
  | (_, count) :: rest, r =>
    have : Decidable (LoopExact rest (r - count)) := LoopExact.instDecidable rest (r - count)
    inferInstanceAs
      (Decidable (0 < r - count →
        roundDouble (r - count) = r - count ∧ LoopExact rest (r - count)))

/-- The double written `0.7`. -/
def double07 : ℚ := 3152519739159347 / 2 ^ 52

/-- A ticket table of fractional balances: `a` holds `0.7`, `b` holds `1.5`, `c` holds
`0.7`. -/
def fractionalTickets : Obj ℚ := [("a", double07), ("b", 3 / 2), ("c", double07)]

/-- The largest value of `Math.random()` with 52 fraction bits, `1 - 2 ^ -52`. -/
def lastDraw : ℚ := 1 - 1 / 2 ^ 52

/-- A sample round: holders `a` (100), `b` (0) and `c` (50), the draw `0.8` (as a double,
which puts the position at `120`), a custodial balance of `10 ^ 18`, gas price
`5 * 10 ^ 9`, and every call succeeding. -/
def sampleEnv : Env where
  holders := [⟨"a", 100⟩, ⟨"b", 0⟩, ⟨"c", 50⟩]
  rand := 3602879701896397 / 2 ^ 52
  prizeRand := 1 / 3
  toChecksumAddress := fun a => some a
  balance := some (10 ^ 18)
  gasPrice := some (5 * 10 ^ 9)
  nonce := some 7
  signOk := true
  transactionHash := some "0xh"
  sendPhotoOk := true
  save := SaveOutcome.ok

/-- A sample state: `c` holds two balls, `a` holds one, nothing is persisted yet. -/
def sampleState : State where
  crystalBallWins := [("a", 1), ("c", 2)]
  winnersHistory := some []
  prizePercentage := none
  collection := []

/-- The sample round with an empty custodial wallet and the prize draw `1 / 7`. -/
def zeroBalanceEnv : Env := { sampleEnv with balance := some 0, prizeRand := 1 / 7 }

/-- The sample round with a chat that rejects the announcement. -/
def silentChatEnv : Env := { sampleEnv with sendPhotoOk := false }

/-- The sample round with a custodial balance of one native unit and a gas price of zero. -/
def dustEnv : Env := { sampleEnv with balance := some 1, gasPrice := some 0 }

/-- The sample round with the holders of the fractional table and the draw `1 - 2 ^ -52`. -/
def fractionalEnv : Env :=
  { sampleEnv with
    holders := [⟨"a", double07⟩, ⟨"b", 3 / 2⟩, ⟨"c", double07⟩]
    rand := lastDraw }

/-- The history that `loadCrystalBallWins` rebuilds from the documents of
`saveData wins history`: for every ledger entry, in ledger order, the first history record
of that address, kept when its percentage is truthy. -/
def reloadedHistory (wins : Obj ℤ) (history : List WinnerRecord) : List WinnerRecord :=
  wins.filterMap fun entry =>
    match history.find? (fun w => decide (w.winner = entry.1)) with
    | some r => if r.percentage ≠ 0 then some ⟨entry.1, r.percentage⟩ else none
    | none => none

/-- A state whose history holds two records of `c`, out of ledger order, and a record of
an address `z` that is not in the ledger. -/
def historyState : State where
  crystalBallWins := [("a", 0), ("c", 1)]
  winnersHistory := some [⟨"c", 50⟩, ⟨"a", 30⟩, ⟨"c", 40⟩, ⟨"z", 60⟩]
  prizePercentage := some 40
  collection := []

/-! ## Dictionary lemmas -/

theorem Obj.get_set {β : Type} (o : Obj β) (k a : Address) (v : β) :
    Obj.get (Obj.set o k v) a = if a = k then some v else Obj.get o a := by
  induction o with
  | nil =>
    by_cases h : a = k
    · simp [Obj.set, Obj.get, h]
    · have h2 : ¬ k = a := fun e => h e.symm
      simp [Obj.set, Obj.get, h, h2]
  | cons e rest ih =>
    obtain ⟨k', v'⟩ := e
    by_cases hk : k' = k
    · by_cases h : a = k
      · simp [Obj.set, Obj.get, hk, h]
      · have h2 : ¬ k = a := fun e => h e.symm
        simp [Obj.set, Obj.get, hk, h, h2]
    · by_cases h : a = k
      · subst h
        simp [Obj.set, Obj.get, hk, ih]
      · by_cases h3 : k' = a
        · simp [Obj.set, Obj.get, hk, h, h3]
        · simp [Obj.set, Obj.get, hk, h, h3, ih]

theorem Obj.set_set {β : Type} (o : Obj β) (k : Address) (v v' : β) :
    Obj.set (Obj.set o k v) k v' = Obj.set o k v' := by
  induction o with
  | nil => simp [Obj.set]
  | cons e rest ih =>
    obtain ⟨k', w⟩ := e
    by_cases hk : k' = k
    · simp [Obj.set, hk]
    · simp [Obj.set, hk, ih]

theorem Obj.mem_set {β : Type} (o : Obj β) (k : Address) (v : β) (e : Address × β)
    (he : e ∈ Obj.set o k v) : e ∈ o ∨ e = (k, v) := by
  induction o with
  | nil => simpa [Obj.set] using he
  | cons e' rest ih =>
    obtain ⟨k', w⟩ := e'
    by_cases hk : k' = k
    · simp only [Obj.set, hk, if_true, List.mem_cons] at he
      rcases he with h | h
      · exact Or.inr h
      · exact Or.inl (List.mem_cons_of_mem _ h)
    · simp only [Obj.set, hk, if_false, List.mem_cons] at he
      rcases he with h | h
      · exact Or.inl (by simp [h])
      · rcases ih h with h' | h'
        · exact Or.inl (List.mem_cons_of_mem _ h')
        · exact Or.inr h'

theorem Obj.mem_delete {β : Type} (o : Obj β) (k : Address) (e : Address × β)
    (he : e ∈ Obj.delete o k) : e ∈ o := by
  induction o with
  | nil => simp [Obj.delete] at he
  | cons e' rest ih =>
    obtain ⟨k', w⟩ := e'
    by_cases hk : k' = k
    · simp only [Obj.delete, hk, if_true] at he
      exact List.mem_cons_of_mem _ (ih he)
    · simp only [Obj.delete, hk, if_false, List.mem_cons] at he
      rcases he with h | h
      · simp [h]
      · exact List.mem_cons_of_mem _ (ih h)

theorem Obj.get_mem {β : Type} (o : Obj β) (k : Address) (v : β)
    (h : Obj.get o k = some v) : (k, v) ∈ o := by
  induction o with
  | nil => simp [Obj.get] at h
  | cons e rest ih =>
    obtain ⟨k', w⟩ := e
    by_cases hk : k' = k
    · simp only [Obj.get, hk, if_true, Option.some.injEq] at h
      simp [hk, h]
    · simp only [Obj.get, hk, if_false] at h
      exact List.mem_cons_of_mem _ (ih h)

theorem LedgerOk.orZero_get {wins : Obj ℤ} (h : LedgerOk wins) (k : Address) :
    orZero (Obj.get wins k) = 0 ∨ orZero (Obj.get wins k) = 1 ∨ orZero (Obj.get wins k) = 2 := by
  cases hg : Obj.get wins k with
  | none => simp [orZero]
  | some v => simpa [orZero] using h _ (Obj.get_mem wins k v hg)

theorem LedgerOk.set {wins : Obj ℤ} (h : LedgerOk wins) (k : Address) (v : ℤ)
    (hv : v = 0 ∨ v = 1 ∨ v = 2) : LedgerOk (Obj.set wins k v) := by
  intro e he
  rcases Obj.mem_set wins k v e he with h' | h'
  · exact h e h'
  · simpa [h'] using hv

theorem LedgerOk.delete {wins : Obj ℤ} (h : LedgerOk wins) (k : Address) :
    LedgerOk (Obj.delete wins k) :=
  fun e he => h e (Obj.mem_delete wins k e he)

theorem LedgerOk.filterBlacklistedAddresses (blacklist : List Address) :
    ∀ wins : Obj ℤ, LedgerOk wins → LedgerOk (filterBlacklistedAddresses blacklist wins) := by
  induction blacklist with
  | nil => intro wins h; simpa [Lakibot.filterBlacklistedAddresses] using h
  | cons a rest ih =>
    intro wins h
    simp only [Lakibot.filterBlacklistedAddresses, List.foldl_cons]
    by_cases ht : truthyNum (Obj.get wins a) = true
    · simp only [ht, if_true]
      exact ih _ (h.delete a)
    · simp only [ht]
      exact ih _ h

@[simp] theorem saveCrystalBallWins_crystalBallWins (o : SaveOutcome) (s : State) :
    (saveCrystalBallWins o s).crystalBallWins = s.crystalBallWins := by
  cases o <;> cases h : s.winnersHistory <;> simp [saveCrystalBallWins, h]

@[simp] theorem saveCrystalBallWins_winnersHistory (o : SaveOutcome) (s : State) :
    (saveCrystalBallWins o s).winnersHistory = s.winnersHistory := by
  cases o <;> cases h : s.winnersHistory <;> simp [saveCrystalBallWins, h]

/-- The ledger after lines 316 to 344: the winner's entry is set to the incremented count,
or to `0` when the incremented count is `3`. -/
theorem awardBall_crystalBallWins (env : Env) (winner : Address) (s : State) :
    (awardBall env winner s).1.crystalBallWins =
      Obj.set s.crystalBallWins winner
        (if orZero (Obj.get s.crystalBallWins winner) + 1 = 3 then 0
         else orZero (Obj.get s.crystalBallWins winner) + 1) := by
  unfold awardBall
  by_cases h3 : orZero (Obj.get s.crystalBallWins winner) + 1 = 3
  · simp only [h3, if_true]
    cases hh : s.winnersHistory <;> split_ifs <;> simp [Obj.set_set]
  · simp only [h3, if_false]
    split_ifs <;> simp

/-- The two ways a round ends: it aborts before line 316 and changes nothing, or it runs
lines 316 to 344 for the address selected from a non-empty ticket table. -/
theorem distributeCrystalBall_cases (env : Env) (s : State) :
    distributeCrystalBall env s = (s, []) ∨
      ∃ winner, env.holders ≠ [] ∧
        selectWinner (calculateTickets env.holders) env.rand = some winner ∧ winner ≠ "" ∧
        distributeCrystalBall env s = awardBall env winner s := by
  unfold distributeCrystalBall
  by_cases h1 : env.holders.length = 0
  · simp [h1]
  · by_cases h2 : (Obj.keys (calculateTickets env.holders)).length = 0
    · simp [h1, h2]
    · cases hsel : selectWinner (calculateTickets env.holders) env.rand with
      | none => simp [h1, h2, hsel]
      | some winner =>
        by_cases h3 : winner = ""
        · simp [h1, h2, hsel, h3]
        · right
          refine ⟨winner, ?_, rfl, h3, ?_⟩
          · intro h; exact h1 (by simp [h])
          · simp [h1, h2, hsel, h3]

/-! ## The ball-count transition -/

/-- Claim C1.  For a winner whose current count `c` (an absent address counting as `0`) is
`0`, `1` or `2`, the ledger after the step is the ledger before with only the winner's
entry replaced, by `0` when `c = 2` and by `c + 1` otherwise; `sendTransaction` is entered
exactly when `c = 2`, and is then the first thing the step does; when `c` is not `2` the
step announces the ball award with the new count `c + 1` and, apart from the save that
follows a delivered announcement, does nothing else. -/
theorem recordWin_transition (env : Env) (winner : Address) (s : State)
    (hc : orZero (Obj.get s.crystalBallWins winner) = 0 ∨
      orZero (Obj.get s.crystalBallWins winner) = 1 ∨
      orZero (Obj.get s.crystalBallWins winner) = 2) :
    (awardBall env winner s).1.crystalBallWins =
        Obj.set s.crystalBallWins winner
          (if orZero (Obj.get s.crystalBallWins winner) = 2 then 0
           else orZero (Obj.get s.crystalBallWins winner) + 1)
    ∧ (∀ a, Obj.get (awardBall env winner s).1.crystalBallWins a =
        if a = winner then
          some (if orZero (Obj.get s.crystalBallWins winner) = 2 then 0
            else orZero (Obj.get s.crystalBallWins winner) + 1)
        else Obj.get s.crystalBallWins a)
    ∧ ((∃ a f, Effect.sendTransaction a f ∈ (awardBall env winner s).2) ↔
        orZero (Obj.get s.crystalBallWins winner) = 2)
    ∧ (orZero (Obj.get s.crystalBallWins winner) = 2 →
        (awardBall env winner s).2.head? =
          some (Effect.sendTransaction winner ((env.prizeRand * (100 - 25) + 25) / 100)))
    ∧ (orZero (Obj.get s.crystalBallWins winner) ≠ 2 →
        (awardBall env winner s).2 =
          Effect.sendPhoto (Announcement.balls winner
              (orZero (Obj.get s.crystalBallWins winner) + 1)) ::
            (if env.sendPhotoOk then [Effect.saveCrystalBallWins] else [])) := by
  have hset : (awardBall env winner s).1.crystalBallWins =
        Obj.set s.crystalBallWins winner
          (if orZero (Obj.get s.crystalBallWins winner) = 2 then 0
           else orZero (Obj.get s.crystalBallWins winner) + 1) := by
    rw [awardBall_crystalBallWins]
    congr 1
    by_cases h2 : orZero (Obj.get s.crystalBallWins winner) = 2
    · simp [h2]
    · have h3 : ¬ orZero (Obj.get s.crystalBallWins winner) + 1 = 3 := by omega
      simp [h2, h3]
  refine ⟨hset, ?_, ?_, ?_, ?_⟩
  · intro a
    rw [hset, Obj.get_set]
  · constructor
    · rintro ⟨a, f, hmem⟩
      by_contra h2
      have h3 : ¬ orZero (Obj.get s.crystalBallWins winner) + 1 = 3 := by omega
      have h12 : orZero (Obj.get s.crystalBallWins winner) + 1 = 1 ∨
          orZero (Obj.get s.crystalBallWins winner) + 1 = 2 := by omega
      unfold awardBall at hmem
      simp only [h3, if_false, sendAnnouncement, h12, if_true] at hmem
      split_ifs at hmem <;> simp at hmem
    · intro h2
      refine ⟨winner, (env.prizeRand * (100 - 25) + 25) / 100, ?_⟩
      unfold awardBall
      simp [h2]
  · intro h2
    unfold awardBall
    simp [h2]
  · intro h2
    have h3 : ¬ orZero (Obj.get s.crystalBallWins winner) + 1 = 3 := by omega
    have h12 : orZero (Obj.get s.crystalBallWins winner) + 1 = 1 ∨
        orZero (Obj.get s.crystalBallWins winner) + 1 = 2 := by omega
    unfold awardBall
    simp only [h3, if_false, sendAnnouncement, h12, if_true]
    split_ifs <;> simp

/-- Scenario B on the sample state: `c` holds two balls, the step resets its entry to `0`
and leaves the entry of `a` alone. -/
theorem recordWin_transition_witness :
    orZero (Obj.get sampleState.crystalBallWins "c") = 2 ∧
      (awardBall sampleEnv "c" sampleState).1.crystalBallWins = [("a", 1), ("c", 0)] :=
  ⟨by decide, by
    have h := (recordWin_transition sampleEnv "c" sampleState (by decide)).1
    rw [h]
    decide⟩

/-! ## The ledger invariant -/

/-- Claim C2.  If every count of the ledger is `0`, `1` or `2` before a round, then every
count is `0`, `1` or `2` after `distributeCrystalBall`, whatever the holder list, the draws
and the answers of the chain, the chat and the database; `filterBlacklistedAddresses`
preserves the same predicate. -/
theorem ledger_invariant (env : Env) (s : State) (blacklist : List Address)
    (h : LedgerOk s.crystalBallWins) :
    LedgerOk (distributeCrystalBall env s).1.crystalBallWins ∧
      LedgerOk (filterBlacklistedAddresses blacklist s.crystalBallWins) := by
  refine ⟨?_, LedgerOk.filterBlacklistedAddresses blacklist _ h⟩
  have haward : ∀ winner, LedgerOk (awardBall env winner s).1.crystalBallWins := by
    intro winner
    rw [awardBall_crystalBallWins]
    apply h.set
    have hc := h.orZero_get winner
    split_ifs <;> omega
  rcases distributeCrystalBall_cases env s with hr | ⟨winner, _, _, _, hr⟩
  · rw [hr]; exact h
  · rw [hr]; exact haward winner

/-- The invariant on the sample round, in which `c` wins its third ball. -/
theorem ledger_invariant_witness :
    LedgerOk sampleState.crystalBallWins ∧
      LedgerOk (distributeCrystalBall sampleEnv sampleState).1.crystalBallWins ∧
      LedgerOk (filterBlacklistedAddresses ["a"] sampleState.crystalBallWins) :=
  ⟨by decide, ledger_invariant sampleEnv sampleState ["a"] (by decide)⟩

/-! ## Rounding to a double -/

@[simp] theorem roundDouble_zero : roundDouble 0 = 0 := by
  simp [roundDouble]

theorem roundHalfEven_intCast (k : ℤ) : roundHalfEven (k : ℚ) = k := by
  simp [roundHalfEven]

theorem roundHalfEven_of_lt (y : ℚ) (f : ℤ) (h1 : (f : ℚ) ≤ y) (h2 : y < f + 1 / 2) :
    roundHalfEven y = f := by
  have hf : ⌊y⌋ = f := Int.floor_eq_iff.mpr ⟨h1, by linarith⟩
  have h3 : y - (f : ℚ) < 1 / 2 := by linarith
  simp only [roundHalfEven, hf, h3, if_true]

theorem roundHalfEven_of_gt (y : ℚ) (f : ℤ) (h1 : (f : ℚ) + 1 / 2 < y) (h2 : y < f + 1) :
    roundHalfEven y = f + 1 := by
  have hf : ⌊y⌋ = f := Int.floor_eq_iff.mpr ⟨by linarith, h2⟩
  have h3 : ¬ y - (f : ℚ) < 1 / 2 := by linarith
  have h4 : 1 / 2 < y - (f : ℚ) := by linarith
  simp only [roundHalfEven, hf, h3, h4, if_true, if_false]

theorem roundHalfEven_of_tie (y : ℚ) (f : ℤ) (h : y = f + 1 / 2) :
    roundHalfEven y = if f % 2 = 0 then f else f + 1 := by
  have hf : ⌊y⌋ = f := Int.floor_eq_iff.mpr ⟨by linarith, by linarith⟩
  have h3 : ¬ y - (f : ℚ) < 1 / 2 := by linarith
  have h4 : ¬ 1 / 2 < y - (f : ℚ) := by linarith
  simp only [roundHalfEven, hf, h3, h4, if_false]

theorem roundHalfEven_nonpos (y : ℚ) (h : y ≤ 0) : roundHalfEven y ≤ 0 := by
  have hfl : ⌊y⌋ ≤ 0 := Int.floor_nonpos h
  have hle : ((⌊y⌋ : ℤ) : ℚ) ≤ y := Int.floor_le y
  have hneg : ¬ y - ⌊y⌋ < 1 / 2 → ⌊y⌋ + 1 ≤ 0 := by
    intro hn
    by_contra hc
    have h0 : ⌊y⌋ = 0 := by omega
    rw [h0] at hle hn
    apply hn
    have : y = 0 := le_antisymm h (by simpa using hle)
    rw [this]
    norm_num
  unfold roundHalfEven
  split_ifs with h1 h2 h3
  · exact hfl
  · exact hneg h1
  · exact hfl
  · exact hneg h1

/-- A result that is not positive is not rounded to a positive double. -/
theorem roundDouble_nonpos (x : ℚ) (h : x ≤ 0) : roundDouble x ≤ 0 := by
  unfold roundDouble
  split_ifs with hx
  · exact le_refl _
  · have hq : (0 : ℚ) < 2 ^ (max (Int.log 2 |x|) (-1022) - 52) := by positivity
    have hy : x / 2 ^ (max (Int.log 2 |x|) (-1022) - 52) ≤ 0 :=
      div_nonpos_of_nonpos_of_nonneg h hq.le
    have hr := roundHalfEven_nonpos _ hy
    have hr' : ((roundHalfEven (x / 2 ^ (max (Int.log 2 |x|) (-1022) - 52)) : ℤ) : ℚ) ≤ 0 := by
      exact_mod_cast hr
    exact mul_nonpos_of_nonpos_of_nonneg hr' hq.le

theorem log_two_eq (x : ℚ) (e : ℤ) (hx : 0 < x) (h1 : 2 ^ e ≤ x) (h2 : x < 2 ^ (e + 1)) :
    Int.log 2 x = e := by
  have a : e ≤ Int.log 2 x :=
    (Int.zpow_le_iff_le_log (by norm_num) hx).mp (by exact_mod_cast h1)
  have b : Int.log 2 x < e + 1 :=
    (Int.lt_zpow_iff_log_lt (by norm_num) hx).mp (by exact_mod_cast h2)
  omega

/-- The rounding of a positive result with binary exponent `e`, from the rounding of its
quotient by the spacing. -/
theorem roundDouble_eval (x : ℚ) (e n : ℤ) (h1 : 2 ^ e ≤ x) (h2 : x < 2 ^ (e + 1))
    (he : -1022 ≤ e) (hn : roundHalfEven (x / 2 ^ (e - 52)) = n) :
    roundDouble x = (n : ℚ) * 2 ^ (e - 52) := by
  have hpos : (0 : ℚ) < x := lt_of_lt_of_le (by positivity) h1
  have hlog := log_two_eq x e hpos h1 h2
  have hmax : max e (-1022) = e := max_eq_left he
  rw [roundDouble, if_neg hpos.ne', abs_of_pos hpos, hlog, hmax, hn]

/-- A number with at most 53 significant bits and a binary exponent of at least `-1074` is
a double: rounding leaves it as it is. -/
theorem roundDouble_of_scaled (m k : ℤ) (hm1 : -(2 ^ 53) < m) (hm2 : m < 2 ^ 53)
    (hk : -1074 ≤ k) : roundDouble ((m : ℚ) * 2 ^ k) = (m : ℚ) * 2 ^ k := by
  by_cases hm0 : m = 0
  · simp [hm0]
  have h2k : (0 : ℚ) < 2 ^ k := by positivity
  have hmq : (m : ℚ) ≠ 0 := by exact_mod_cast hm0
  have hx : (m : ℚ) * 2 ^ k ≠ 0 := mul_ne_zero hmq h2k.ne'
  have habs : |(m : ℚ)| < 2 ^ (53 : ℤ) := by
    rw [abs_lt]
    constructor
    · have : ((-(2 ^ 53) : ℤ) : ℚ) < (m : ℚ) := by exact_mod_cast hm1
      norm_num at this ⊢
      exact this
    · have : (m : ℚ) < ((2 ^ 53 : ℤ) : ℚ) := by exact_mod_cast hm2
      norm_num at this ⊢
      exact this
  have hlt : |(m : ℚ) * 2 ^ k| < 2 ^ (53 + k) := by
    rw [abs_mul, abs_of_pos h2k, zpow_add₀ (by norm_num : (2 : ℚ) ≠ 0)]
    exact mul_lt_mul_of_pos_right habs h2k
  have hlog : Int.log 2 |(m : ℚ) * 2 ^ k| < 53 + k :=
    (Int.lt_zpow_iff_log_lt (by norm_num) (abs_pos.mpr hx)).mp (by exact_mod_cast hlt)
  rw [roundDouble, if_neg hx]
  generalize hE : max (Int.log 2 |(m : ℚ) * 2 ^ k|) (-1022) = E
  have hEk : E - 52 ≤ k := by
    have : E ≤ k + 52 := by
      rw [← hE]
      exact max_le (by omega) (by omega)
    omega
  obtain ⟨j, hj⟩ : ∃ j : ℕ, k = (E - 52) + (j : ℤ) := ⟨(k - (E - 52)).toNat, by omega⟩
  have hsplit : (2 : ℚ) ^ k = 2 ^ (E - 52) * 2 ^ j := by
    rw [hj, zpow_add₀ (by norm_num : (2 : ℚ) ≠ 0), zpow_natCast]
  have hq : (0 : ℚ) < 2 ^ (E - 52) := by positivity
  have hdiv : (m : ℚ) * 2 ^ k / 2 ^ (E - 52) = ((m * 2 ^ j : ℤ) : ℚ) := by
    rw [hsplit]
    push_cast
    field_simp
    ring
  rw [hdiv, roundHalfEven_intCast, hsplit]
  push_cast
  ring

/-- An integer below `2 ^ 53` in magnitude is a double. -/
theorem roundDouble_intCast (n : ℤ) (h1 : -(2 ^ 53) < n) (h2 : n < 2 ^ 53) :
    roundDouble (n : ℚ) = n := by
  have := roundDouble_of_scaled n 0 h1 h2 (by norm_num)
  simpa using this

/-- A natural number below `2 ^ 53` is a double. -/
theorem roundDouble_natCast (n : ℕ) (h : n < 2 ^ 53) : roundDouble (n : ℚ) = n := by
  have := roundDouble_intCast (n : ℤ) (by omega) (by exact_mod_cast h)
  simpa using this

/-! ## The selection on exact numbers -/

theorem specTotal_foldl (l : List ℚ) (x : ℚ) :
    l.foldl (fun acc count => acc + count) x = x + l.sum := by
  induction l generalizing x with
  | nil => simp
  | cons y rest ih => simp [ih, add_assoc]

theorem specTotal_eq_sum (tickets : Obj ℚ) :
    specTotal tickets = (tickets.map Prod.snd).sum := by
  simp [specTotal, Obj.values, specTotal_foldl]

@[simp] theorem specTotal_nil : specTotal [] = 0 := by
  simp [specTotal_eq_sum]

@[simp] theorem specTotal_cons (e : Address × ℚ) (rest : Obj ℚ) :
    specTotal (e :: rest) = e.2 + specTotal rest := by
  simp [specTotal_eq_sum]

@[simp] theorem specTotal_append (l₁ l₂ : Obj ℚ) :
    specTotal (l₁ ++ l₂) = specTotal l₁ + specTotal l₂ := by
  simp [specTotal_eq_sum]

theorem specTotal_perm {l₁ l₂ : Obj ℚ} (h : l₁.Perm l₂) :
    specTotal l₁ = specTotal l₂ := by
  rw [specTotal_eq_sum, specTotal_eq_sum]
  exact (h.map Prod.snd).sum_eq

theorem specTotal_nonneg (l : Obj ℚ) (hpos : ∀ e ∈ l, 0 < e.2) : 0 ≤ specTotal l := by
  induction l with
  | nil => simp
  | cons e rest ih =>
    have h1 : 0 < e.2 := hpos e (List.mem_cons_self _ _)
    have h2 := ih (fun e' he' => hpos e' (List.mem_cons_of_mem _ he'))
    rw [specTotal_cons]
    linarith

/-- The exact loop only ever returns a key of the table. -/
theorem specSelectLoop_mem_keys (entries : Obj ℚ) (r : ℚ) (a : Address)
    (h : specSelectLoop entries r = some a) : a ∈ Obj.keys entries := by
  induction entries generalizing r with
  | nil => simp [specSelectLoop] at h
  | cons e rest ih =>
    obtain ⟨b, v⟩ := e
    by_cases hle : r - v ≤ 0
    · simp only [specSelectLoop, hle, if_true, Option.some.injEq] at h
      simp [Obj.keys, h]
    · simp only [specSelectLoop, hle, if_false] at h
      have := ih _ h
      simp only [Obj.keys] at this ⊢
      simp [this]

/-- On a non-empty table whose total covers the position, the loop stops at some entry:
the first one after which the remainder is not positive. -/
theorem specSelectLoop_exists (entries : Obj ℚ) (r : ℚ) (hne : entries ≠ [])
    (hr : r - specTotal entries ≤ 0) :
    ∃ pre a w post, entries = pre ++ (a, w) :: post ∧
      (∀ p, p <+: pre → p ≠ [] → 0 < r - specTotal p) ∧
      r - specTotal pre - w ≤ 0 ∧ specSelectLoop entries r = some a := by
  induction entries generalizing r with
  | nil => exact absurd rfl hne
  | cons e rest ih =>
    obtain ⟨b, v⟩ := e
    by_cases hle : r - v ≤ 0
    · refine ⟨[], b, v, rest, rfl, ?_, ?_, ?_⟩
      · intro p hp hne'
        exact absurd (List.prefix_nil.mp hp) hne'
      · simpa using hle
      · simp [specSelectLoop, hle]
    · have hrest : rest ≠ [] := by
        intro h
        subst h
        simp at hr
        exact hle (by linarith)
      have hr' : r - v - specTotal rest ≤ 0 := by
        rw [specTotal_cons] at hr
        simp only at hr
        linarith
      obtain ⟨pre, a, w, post, hsplit, hpre, hw, hsel⟩ := ih (r - v) hrest hr'
      refine ⟨(b, v) :: pre, a, w, post, by simp [hsplit], ?_, ?_, ?_⟩
      · intro p hp hne'
        rcases List.prefix_cons_iff.mp hp with h | ⟨t, ht, htp⟩
        · exact absurd h hne'
        · subst ht
          rw [specTotal_cons]
          simp only
          by_cases hte : t = []
          · subst hte
            simp only [specTotal_nil, add_zero]
            exact not_le.mp hle
          · have := hpre t htp hte
            linarith
      · rw [specTotal_cons]
        simp only
        linarith
      · simp [specSelectLoop, hle, hsel]

/-- With positive weights before it and no other entry of the same address, the entry
`(a, w)` is where the loop stops exactly for the positions above the weights before it
(or any position, when it is the first entry) and up to those weights plus `w`. -/
theorem specSelectLoop_eq_some_iff (pre post : Obj ℚ) (a : Address) (w r : ℚ)
    (hpos : ∀ e ∈ pre, 0 < e.2) (hpre : a ∉ Obj.keys pre) (hpost : a ∉ Obj.keys post) :
    specSelectLoop (pre ++ (a, w) :: post) r = some a ↔
      (pre = [] ∨ specTotal pre < r) ∧ r ≤ specTotal pre + w := by
  induction pre generalizing r with
  | nil =>
    by_cases hle : r - w ≤ 0
    · have : r ≤ w := by linarith
      simp [specSelectLoop, hle, this]
    · have hlt : ¬ r ≤ w := fun h => hle (by linarith)
      simp only [List.nil_append, specSelectLoop, hle, if_false, specTotal_nil, zero_add, hlt,
        and_false, iff_false]
      intro h
      exact hpost (specSelectLoop_mem_keys _ _ _ h)
  | cons e rest ih =>
    obtain ⟨b, v⟩ := e
    have hba : b ≠ a := by
      intro h
      apply hpre
      simp [Obj.keys, h]
    have hrest : a ∉ Obj.keys rest := by
      intro h
      apply hpre
      simp only [Obj.keys] at h ⊢
      simp [h]
    have hposr : ∀ e ∈ rest, 0 < e.2 := fun e he => hpos e (List.mem_cons_of_mem _ he)
    have hnn := specTotal_nonneg rest hposr
    have hv : 0 < v := hpos (b, v) (List.mem_cons_self _ _)
    rw [specTotal_cons]
    by_cases hle : r - v ≤ 0
    · have hsel : specSelectLoop ((b, v) :: rest ++ (a, w) :: post) r = some b := by
        simp [specSelectLoop, hle]
      rw [hsel]
      simp only [Option.some.injEq, hba, false_iff, not_and, not_le]
      rintro (h | h)
      · exact absurd h (by simp)
      · linarith
    · have hsel : specSelectLoop ((b, v) :: rest ++ (a, w) :: post) r =
          specSelectLoop (rest ++ (a, w) :: post) (r - v) := by
        simp [specSelectLoop, hle]
      rw [hsel, ih (r - v) hposr hrest]
      have hvr : v < r := by
        by_contra hc
        exact hle (by linarith)
      constructor
      · rintro ⟨h1, h2⟩
        refine ⟨Or.inr ?_, by linarith⟩
        rcases h1 with h1 | h1
        · subst h1
          simpa using hvr
        · linarith
      · rintro ⟨h1, h2⟩
        refine ⟨?_, by linarith⟩
        rcases h1 with h1 | h1
        · exact absurd h1 (by simp)
        · by_cases hr0 : rest = []
          · exact Or.inl hr0
          · exact Or.inr (by linarith)

/-! ## The selection on doubles -/

@[simp] theorem totalTickets_nil : totalTickets [] = 0 := rfl

theorem selectLoop_stop (a : Address) (w : ℚ) (rest : Obj ℚ) (r : ℚ)
    (h : roundDouble (r - w) ≤ 0) : selectLoop ((a, w) :: rest) r = some a := by
  simp [selectLoop, h]

theorem selectLoop_next (a : Address) (w : ℚ) (rest : Obj ℚ) (r : ℚ)
    (h : 0 < roundDouble (r - w)) :
    selectLoop ((a, w) :: rest) r = selectLoop rest (roundDouble (r - w)) := by
  simp [selectLoop, not_le.mpr h]

/-- The loop only ever returns a key of the table. -/
theorem selectLoop_mem_keys (entries : Obj ℚ) (r : ℚ) (a : Address)
    (h : selectLoop entries r = some a) : a ∈ Obj.keys entries := by
  induction entries generalizing r with
  | nil => simp [selectLoop] at h
  | cons e rest ih =>
    obtain ⟨b, v⟩ := e
    by_cases hle : roundDouble (r - v) ≤ 0
    · rw [selectLoop_stop b v rest r hle] at h
      simp [Obj.keys, Option.some.inj h]
    · rw [selectLoop_next b v rest r (not_le.mp hle)] at h
      have := ih _ h
      simp only [Obj.keys] at this ⊢
      simp [this]

theorem SumExact.foldl (values : List ℚ) (acc : ℚ) (h : SumExact values acc) :
    values.foldl (fun acc count => roundDouble (acc + count)) acc =
      values.foldl (fun acc count => acc + count) acc := by
  induction values generalizing acc with
  | nil => rfl
  | cons v rest ih =>
    obtain ⟨h1, h2⟩ := h
    simp only [List.foldl_cons]
    rw [h1]
    exact ih _ h2

/-- When no addition rounds, the total of the code is the sum of the weights. -/
theorem totalTickets_eq_specTotal (tickets : Obj ℚ) (h : SumExact (Obj.values tickets) 0) :
    totalTickets tickets = specTotal tickets :=
  SumExact.foldl _ _ h

/-- When no subtraction rounds where the loop goes on, the loop of the code is the loop on
exact numbers. -/
theorem selectLoop_eq_spec (entries : Obj ℚ) (r : ℚ) (h : LoopExact entries r) :
    selectLoop entries r = specSelectLoop entries r := by
  induction entries generalizing r with
  | nil => rfl
  | cons e rest ih =>
    obtain ⟨a, w⟩ := e
    by_cases hle : r - w ≤ 0
    · rw [selectLoop_stop a w rest r (roundDouble_nonpos _ hle)]
      simp [specSelectLoop, hle]
    · obtain ⟨h1, h2⟩ := h (not_le.mp hle)
      have hpos : 0 < roundDouble (r - w) := by
        rw [h1]
        exact not_le.mp hle
      rw [selectLoop_next a w rest r hpos, h1, ih _ h2]
      simp [specSelectLoop, hle]

theorem sum_natCast_nonneg (values : List ℚ) (hv : ∀ v ∈ values, ∃ n : ℕ, v = n) :
    0 ≤ values.sum := by
  apply List.sum_nonneg
  intro v hvm
  obtain ⟨n, hn⟩ := hv v hvm
  rw [hn]
  exact Nat.cast_nonneg n

/-- Whole-number weights whose sum stays below `2 ^ 53` are added without rounding. -/
theorem SumExact_of_nat (values : List ℚ) (hv : ∀ v ∈ values, ∃ n : ℕ, v = n) (A : ℕ)
    (hb : (A : ℚ) + values.sum < 2 ^ 53) : SumExact values A := by
  induction values generalizing A with
  | nil => trivial
  | cons v rest ih =>
    obtain ⟨n, hn⟩ := hv v (List.mem_cons_self _ _)
    have hrest : ∀ x ∈ rest, ∃ k : ℕ, x = k := fun x hx => hv x (List.mem_cons_of_mem _ hx)
    have hnn := sum_natCast_nonneg rest hrest
    rw [List.sum_cons, hn] at hb
    have hcast : (A : ℚ) + v = ((A + n : ℕ) : ℚ) := by
      rw [hn]
      push_cast
      rfl
    have hlt : A + n < 2 ^ 53 := by
      have : ((A + n : ℕ) : ℚ) < 2 ^ 53 := by
        push_cast
        linarith
      exact_mod_cast this
    refine ⟨?_, ?_⟩
    · rw [hcast]
      exact roundDouble_natCast _ hlt
    · rw [hcast]
      apply ih hrest
      push_cast
      linarith

/-- With whole-number weights, a whole-number position below `2 ^ 53` is walked down
without rounding. -/
theorem LoopExact_of_nat (entries : Obj ℚ) (hw : ∀ e ∈ entries, ∃ n : ℕ, e.2 = n) (R : ℕ)
    (hR : R < 2 ^ 53) : LoopExact entries R := by
  induction entries generalizing R with
  | nil => trivial
  | cons e rest ih =>
    obtain ⟨a, w⟩ := e
    obtain ⟨n, hn⟩ := hw (a, w) (List.mem_cons_self _ _)
    have hn' : w = n := hn
    intro hpos
    rw [hn'] at hpos ⊢
    have hlt : n < R := by
      have : (n : ℚ) < R := by linarith
      exact_mod_cast this
    have hcast : (R : ℚ) - n = ((R - n : ℕ) : ℚ) := by
      rw [Nat.cast_sub hlt.le]
    rw [hcast]
    exact ⟨roundDouble_natCast _ (by omega),
      ih (fun e he => hw e (List.mem_cons_of_mem _ he)) _ (by omega)⟩

/-! ## A fractional table at the last draw -/

/-- A double is left as it is: the form of `roundDouble_of_scaled` for a given number. -/
theorem roundDouble_fixed (x : ℚ) (m k : ℤ) (hx : x = (m : ℚ) * 2 ^ k)
    (hm1 : -(2 ^ 53) < m) (hm2 : m < 2 ^ 53) (hk : -1074 ≤ k) : roundDouble x = x := by
  rw [hx]
  exact roundDouble_of_scaled m k hm1 hm2 hk

/-- The rounding of a positive result, from its binary exponent `e` and the rounding `n` of
its quotient by the spacing. -/
theorem roundDouble_eq_of (x y : ℚ) (e n : ℤ) (h1 : 2 ^ e ≤ x) (h2 : x < 2 ^ (e + 1))
    (he : -1022 ≤ e) (hn : roundHalfEven (x / 2 ^ (e - 52)) = n)
    (hy : (n : ℚ) * 2 ^ (e - 52) = y) : roundDouble x = y := by
  rw [roundDouble_eval x e n h1 h2 he hn, hy]

theorem double07_pos : 0 < double07 := by
  norm_num [double07]

theorem double07_fixed : roundDouble double07 = double07 :=
  roundDouble_fixed double07 3152519739159347 (-52) (by norm_num [double07])
    (by norm_num) (by norm_num) (by norm_num)

theorem lastDraw_fixed : roundDouble lastDraw = lastDraw :=
  roundDouble_fixed lastDraw 4503599627370495 (-52) (by norm_num [lastDraw])
    (by norm_num) (by norm_num) (by norm_num)

/-- The sum `0.7 + 1.5` lies halfway between two doubles and goes to the even one,
`2.2000000000000002`. -/
theorem fractional_sum1 : roundDouble (double07 + 3 / 2) = 4953959590107546 / 2 ^ 51 :=
  roundDouble_eq_of _ _ 1 4953959590107546 (by norm_num [double07]) (by norm_num [double07])
    (by norm_num)
    (by
      rw [roundHalfEven_of_tie _ 4953959590107545 (by norm_num [double07])]
      norm_num)
    (by norm_num)

/-- The sum `2.2000000000000002 + 0.7` is again a tie and goes to `2.9000000000000004`. -/
theorem fractional_sum2 :
    roundDouble (4953959590107546 / 2 ^ 51 + double07) = 6530219459687220 / 2 ^ 51 :=
  roundDouble_eq_of _ _ 1 6530219459687220 (by norm_num [double07]) (by norm_num [double07])
    (by norm_num)
    (by
      rw [roundHalfEven_of_tie _ 6530219459687219 (by norm_num [double07])]
      norm_num)
    (by norm_num)

/-- The total of the fractional table, in either listing order of `a` and `b`. -/
theorem fractional_total :
    totalTickets fractionalTickets = 6530219459687220 / 2 ^ 51 ∧
      totalTickets [("b", 3 / 2), ("a", double07), ("c", double07)] =
        6530219459687220 / 2 ^ 51 := by
  constructor
  · show roundDouble (roundDouble (roundDouble (0 + double07) + 3 / 2) + double07) = _
    rw [zero_add, double07_fixed, fractional_sum1, fractional_sum2]
  · show roundDouble (roundDouble (roundDouble (0 + 3 / 2) + double07) + double07) = _
    have h0 : roundDouble ((3 : ℚ) / 2) = 3 / 2 :=
      roundDouble_fixed _ 3 (-1) (by norm_num) (by norm_num) (by norm_num) (by norm_num)
    rw [zero_add, h0, add_comm (3 / 2 : ℚ) double07, fractional_sum1, fractional_sum2]

/-- The position of the last draw on the fractional table, `2.9`, one double below the
total. -/
theorem fractional_position :
    roundDouble (lastDraw * (6530219459687220 / 2 ^ 51)) = 6530219459687219 / 2 ^ 51 :=
  roundDouble_eq_of _ _ 1 6530219459687219 (by norm_num [lastDraw]) (by norm_num [lastDraw])
    (by norm_num)
    (roundHalfEven_of_gt _ 6530219459687218 (by norm_num [lastDraw])
      (by norm_num [lastDraw]))
    (by norm_num)

/-- The walk of the loop over `a`, `b`, `c`: the remainders `2.2000000000000002`,
`0.7000000000000002` and `2 ^ -52` are all positive. -/
theorem fractional_loop_abc :
    selectLoop fractionalTickets (6530219459687219 / 2 ^ 51) = none := by
  have l1 : roundDouble (6530219459687219 / 2 ^ 51 - double07) = 4953959590107546 / 2 ^ 51 := by
    have harg : (6530219459687219 / 2 ^ 51 - double07 : ℚ) = double07 + 3 / 2 := by
      norm_num [double07]
    rw [harg, fractional_sum1]
  have l2 : roundDouble (4953959590107546 / 2 ^ 51 - 3 / 2) = 3152519739159348 / 2 ^ 52 := by
    have harg : (4953959590107546 / 2 ^ 51 - 3 / 2 : ℚ) = 3152519739159348 / 2 ^ 52 := by
      norm_num
    rw [harg]
    exact roundDouble_fixed _ 788129934789837 (-50) (by norm_num) (by norm_num)
      (by norm_num) (by norm_num)
  have l3 : roundDouble (3152519739159348 / 2 ^ 52 - double07) = 1 / 2 ^ 52 := by
    have harg : (3152519739159348 / 2 ^ 52 - double07 : ℚ) = 1 / 2 ^ 52 := by
      norm_num [double07]
    rw [harg]
    exact roundDouble_fixed _ 1 (-52) (by norm_num) (by norm_num) (by norm_num) (by norm_num)
  unfold fractionalTickets
  rw [selectLoop_next _ _ _ _ (by rw [l1]; norm_num), l1,
    selectLoop_next _ _ _ _ (by rw [l2]; norm_num), l2,
    selectLoop_next _ _ _ _ (by rw [l3]; norm_num), l3]
  rfl

/-- The walk of the loop over `b`, `a`, `c` from the same position: the remainders are
`1.4`, `0.7` and `0`, and the loop stops at `c`. -/
theorem fractional_loop_bac :
    selectLoop [("b", 3 / 2), ("a", double07), ("c", double07)]
      (6530219459687219 / 2 ^ 51) = some "c" := by
  have m1 : roundDouble (6530219459687219 / 2 ^ 51 - 3 / 2) = 3152519739159347 / 2 ^ 51 := by
    have harg : (6530219459687219 / 2 ^ 51 - 3 / 2 : ℚ) = 3152519739159347 / 2 ^ 51 := by
      norm_num
    rw [harg]
    exact roundDouble_fixed _ 3152519739159347 (-51) (by norm_num) (by norm_num)
      (by norm_num) (by norm_num)
  have m2 : roundDouble (3152519739159347 / 2 ^ 51 - double07) = double07 := by
    have harg : (3152519739159347 / 2 ^ 51 - double07 : ℚ) = double07 := by
      norm_num [double07]
    rw [harg, double07_fixed]
  have m3 : roundDouble (double07 - double07) = 0 := by
    rw [sub_self, roundDouble_zero]
  rw [selectLoop_next _ _ _ _ (by rw [m1]; norm_num), m1,
    selectLoop_next _ _ _ _ (by rw [m2]; exact double07_pos), m2,
    selectLoop_stop _ _ _ _ (by rw [m3])]

/-- On the fractional table at the last draw `selectWinner` returns no address. -/
theorem fractional_select_none : selectWinner fractionalTickets lastDraw = none := by
  have ht := fractional_total.1
  have hne : ¬ ((6530219459687220 : ℚ) / 2 ^ 51 = 0) := by norm_num
  rw [selectWinner, ht, if_neg hne, fractional_position, fractional_loop_abc]

/-- With `b` listed first, the same table at the same draw selects `c`. -/
theorem fractional_select_bac :
    selectWinner [("b", 3 / 2), ("a", double07), ("c", double07)] lastDraw = some "c" := by
  have ht := fractional_total.2
  have hne : ¬ ((6530219459687220 : ℚ) / 2 ^ 51 = 0) := by norm_num
  rw [selectWinner, ht, if_neg hne, fractional_position, fractional_loop_bac]

theorem fractional_tickets : calculateTickets fractionalEnv.holders = fractionalTickets := by
  have h1 : ¬ double07 ≤ 0 := not_le.mpr double07_pos
  have h2 : ¬ ((3 : ℚ) / 2 ≤ 0) := by norm_num
  simp [calculateTickets, fractionalEnv, fractionalTickets, Obj.set, h1, h2]

/-- Claim C3 at the failing input.  The table `a: 0.7, b: 1.5, c: 0.7` has positive weights
that are doubles, and `1 - 2 ^ -52` is a value of `Math.random()`.  The code's total is
`2.9000000000000004` and the position is `2.9`, inside `[0, total)`; the remainders of the
loop are `2.2000000000000002`, `0.7000000000000002` and `2 ^ -52`, all positive, so the
loop falls off the end: `selectWinner` returns `undefined`, not a key of the table, and the
round ends without a winner, a state change or an effect. -/
theorem selectWinner_falls_off_the_end :
    (∀ e ∈ fractionalTickets, 0 < e.2 ∧ roundDouble e.2 = e.2)
    ∧ 0 ≤ lastDraw ∧ lastDraw < 1 ∧ roundDouble lastDraw = lastDraw
    ∧ totalTickets fractionalTickets = 6530219459687220 / 2 ^ 51
    ∧ roundDouble (lastDraw * totalTickets fractionalTickets) = 6530219459687219 / 2 ^ 51
    ∧ (0 : ℚ) ≤ 6530219459687219 / 2 ^ 51
    ∧ (6530219459687219 : ℚ) / 2 ^ 51 < totalTickets fractionalTickets
    ∧ selectWinner fractionalTickets lastDraw = none
    ∧ distributeCrystalBall fractionalEnv sampleState = (sampleState, []) := by
  have h32 : roundDouble ((3 : ℚ) / 2) = 3 / 2 :=
    roundDouble_fixed _ 3 (-1) (by norm_num) (by norm_num) (by norm_num) (by norm_num)
  refine ⟨?_, by norm_num [lastDraw], by norm_num [lastDraw], lastDraw_fixed,
    fractional_total.1, ?_, by norm_num, ?_, fractional_select_none, ?_⟩
  · intro e he
    simp only [fractionalTickets, List.mem_cons, List.mem_singleton, List.not_mem_nil,
      or_false] at he
    rcases he with h | h | h <;> rw [h]
    · exact ⟨double07_pos, double07_fixed⟩
    · exact ⟨by norm_num, h32⟩
    · exact ⟨double07_pos, double07_fixed⟩
  · rw [fractional_total.1, fractional_position]
  · rw [fractional_total.1]
    norm_num
  · rcases distributeCrystalBall_cases fractionalEnv sampleState with hr | ⟨w, _, hsel, _, _⟩
    · exact hr
    · rw [fractional_tickets] at hsel
      have hrand : fractionalEnv.rand = lastDraw := rfl
      rw [hrand, fractional_select_none] at hsel
      exact absurd hsel (by simp)

/-! ## Proportional selection -/

theorem sample_total : totalTickets [("a", 100), ("c", 50)] = 150 := by
  show roundDouble (roundDouble (0 + 100) + 50) = 150
  have h1 : roundDouble ((0 : ℚ) + 100) = 100 := by
    simpa using roundDouble_natCast 100 (by norm_num)
  have h2 : roundDouble ((100 : ℚ) + 50) = 150 := by
    have : ((100 : ℚ) + 50) = ((150 : ℕ) : ℚ) := by norm_num
    rw [this, roundDouble_natCast 150 (by norm_num)]
    norm_num
  rw [h1, h2]

/-- The draw `0.8` on the total `150`: the product is rounded to the position `120`. -/
theorem sample_position : roundDouble (3602879701896397 / 2 ^ 52 * 150) = 120 :=
  roundDouble_eq_of _ _ 6 8444249301319680 (by norm_num) (by norm_num) (by norm_num)
    (roundHalfEven_of_lt _ 8444249301319680 (by norm_num) (by norm_num))
    (by norm_num)

/-- Claim C4, as the code has it.  Take a table with positive weights and distinct
addresses, listed in any order.  Where the double arithmetic of the selection is exact (no
sum of the total and no positive remainder of the loop is rounded), the selection is
proportional: the code's total is the sum of the weights, whatever the order; for the entry
`(a, w)` with the entries `pre` listed before it, the positions `r` of `[0, total)` at
which `selectWinner` returns `a` are exactly those from `specTotal pre` (excluded, unless
the entry is listed first) to `specTotal pre + w` (included), an interval of length `w`
inside `[0, total]`; and every such position selects exactly one address.  Whole-number
weights with a sum below `2 ^ 53` and whole-number positions are such. -/
theorem selectWinner_proportional_exact (tickets listed : Obj ℚ)
    (hperm : listed.Perm tickets)
    (hpos : ∀ e ∈ tickets, 0 < e.2) (hnodup : (Obj.keys tickets).Nodup) :
    (SumExact (Obj.values listed) 0 → totalTickets listed = specTotal tickets)
    ∧ (∀ pre a w post, listed = pre ++ (a, w) :: post →
        0 ≤ specTotal pre ∧ specTotal pre + w ≤ specTotal tickets ∧
        ∀ rand r, SumExact (Obj.values listed) 0 →
          roundDouble (rand * totalTickets listed) = r →
          0 ≤ r → r < totalTickets listed → LoopExact listed r →
          (selectWinner listed rand = some a ↔
            (pre = [] ∨ specTotal pre < r) ∧ r ≤ specTotal pre + w))
    ∧ (∀ rand r, SumExact (Obj.values listed) 0 →
        roundDouble (rand * totalTickets listed) = r →
        0 ≤ r → r < totalTickets listed → LoopExact listed r →
        ∃! a, a ∈ Obj.keys listed ∧ selectWinner listed rand = some a)
    ∧ ((∀ e ∈ listed, ∃ n : ℕ, e.2 = n) →
        (specTotal listed < 2 ^ 53 → SumExact (Obj.values listed) 0) ∧
        ∀ R : ℕ, R < 2 ^ 53 → LoopExact listed R) := by
  have htot : specTotal listed = specTotal tickets := specTotal_perm hperm
  have hposl : ∀ e ∈ listed, 0 < e.2 := fun e he => hpos e (hperm.subset he)
  have hnodupl : (Obj.keys listed).Nodup := by
    have hp : (Obj.keys listed).Perm (Obj.keys tickets) := hperm.map Prod.fst
    exact hp.nodup_iff.mpr hnodup
  have hsel : ∀ rand r, SumExact (Obj.values listed) 0 →
      roundDouble (rand * totalTickets listed) = r → 0 ≤ r → r < totalTickets listed →
      LoopExact listed r → selectWinner listed rand = specSelectLoop listed r := by
    intro rand r _ hr h0 hlt hloop
    have ht : totalTickets listed ≠ 0 := by
      intro h
      rw [h] at hlt
      linarith
    rw [selectWinner, if_neg ht, hr, selectLoop_eq_spec listed r hloop]
  refine ⟨?_, ?_, ?_, ?_⟩
  · intro hsum
    rw [totalTickets_eq_specTotal listed hsum, htot]
  · intro pre a w post hsplit
    subst hsplit
    have hpp : ∀ e ∈ pre, 0 < e.2 := fun e he => hposl e (List.mem_append_left _ he)
    have hpq : ∀ e ∈ post, 0 < e.2 :=
      fun e he => hposl e (List.mem_append_right _ (List.mem_cons_of_mem _ he))
    have h1 := specTotal_nonneg pre hpp
    have h2 := specTotal_nonneg post hpq
    have hkeys : Obj.keys (pre ++ (a, w) :: post) = Obj.keys pre ++ a :: Obj.keys post := by
      simp [Obj.keys]
    rw [hkeys] at hnodupl
    have hapre : a ∉ Obj.keys pre := by
      intro h
      exact (List.nodup_append.mp hnodupl).2.2 h (List.mem_cons_self _ _)
    have hapost : a ∉ Obj.keys post :=
      (List.nodup_cons.mp (List.nodup_append.mp hnodupl).2.1).1
    refine ⟨h1, ?_, ?_⟩
    · rw [← htot, specTotal_append, specTotal_cons]
      simp only
      linarith
    · intro rand r hsum hr h0 hlt hloop
      rw [hsel rand r hsum hr h0 hlt hloop]
      exact specSelectLoop_eq_some_iff pre post a w r hpp hapre hapost
  · intro rand r hsum hr h0 hlt hloop
    have hts : totalTickets listed = specTotal listed := totalTickets_eq_specTotal listed hsum
    have hne : listed ≠ [] := by
      intro h
      rw [h] at hlt
      simp at hlt
      linarith
    obtain ⟨pre, a, w, post, _, _, _, hs⟩ :=
      specSelectLoop_exists listed r hne (by rw [← hts]; linarith)
    rw [hsel rand r hsum hr h0 hlt hloop]
    refine ⟨a, ⟨specSelectLoop_mem_keys _ _ _ hs, hs⟩, ?_⟩
    rintro b ⟨_, hb⟩
    rw [hs] at hb
    exact (Option.some.inj hb).symm
  · intro hnat
    constructor
    · intro hlt
      have hv : ∀ v ∈ Obj.values listed, ∃ n : ℕ, v = n := by
        intro v hvm
        simp only [Obj.values, List.mem_map] at hvm
        obtain ⟨e, he, hev⟩ := hvm
        obtain ⟨n, hn⟩ := hnat e he
        exact ⟨n, by rw [← hev, hn]⟩
      have := SumExact_of_nat (Obj.values listed) hv 0 (by
        rw [specTotal_eq_sum] at hlt
        simpa [Obj.values] using hlt)
      simpa using this
    · intro R hR
      exact LoopExact_of_nat listed hnat R hR

/-- Scenario A, with the table `a: 100, c: 50` as it is and listed as `c, a`: the weights
are whole numbers, the total is `150` in both orders, and the draw `0.8`, whose position is
`120`, selects `c`, the entry listed after the weight `100`. -/
theorem selectWinner_proportional_exact_witness :
    ([("c", (50 : ℚ)), ("a", 100)] : Obj ℚ).Perm [("a", 100), ("c", 50)] ∧
      (∀ e ∈ ([("a", 100), ("c", 50)] : Obj ℚ), 0 < e.2) ∧
      (Obj.keys ([("a", 100), ("c", 50)] : Obj ℚ)).Nodup ∧
      SumExact (Obj.values ([("c", 50), ("a", 100)] : Obj ℚ)) 0 ∧
      totalTickets [("c", 50), ("a", 100)] = specTotal [("a", 100), ("c", 50)] ∧
      LoopExact [("a", 100), ("c", 50)] 120 ∧
      selectWinner [("a", 100), ("c", 50)] (3602879701896397 / 2 ^ 52) = some "c" := by
  have hpos : ∀ e ∈ ([("a", 100), ("c", 50)] : Obj ℚ), 0 < e.2 := by decide
  have hnodup : (Obj.keys ([("a", 100), ("c", 50)] : Obj ℚ)).Nodup := by decide
  have hperm : ([("c", (50 : ℚ)), ("a", 100)] : Obj ℚ).Perm [("a", 100), ("c", 50)] := by
    decide
  have hnat1 : ∀ e ∈ ([("c", 50), ("a", 100)] : Obj ℚ), ∃ n : ℕ, e.2 = n := by
    intro e he
    simp only [List.mem_cons, List.mem_singleton, List.not_mem_nil, or_false] at he
    rcases he with h | h <;> rw [h]
    · exact ⟨50, by norm_num⟩
    · exact ⟨100, by norm_num⟩
  have hnat2 : ∀ e ∈ ([("a", 100), ("c", 50)] : Obj ℚ), ∃ n : ℕ, e.2 = n := by
    intro e he
    simp only [List.mem_cons, List.mem_singleton, List.not_mem_nil, or_false] at he
    rcases he with h | h <;> rw [h]
    · exact ⟨100, by norm_num⟩
    · exact ⟨50, by norm_num⟩
  have hsum1 : SumExact (Obj.values ([("c", 50), ("a", 100)] : Obj ℚ)) 0 :=
    ((selectWinner_proportional_exact _ _ hperm hpos hnodup).2.2.2 hnat1).1
      (by norm_num [specTotal, Obj.values])
  have hsum2 : SumExact (Obj.values ([("a", 100), ("c", 50)] : Obj ℚ)) 0 :=
    ((selectWinner_proportional_exact _ _ (List.Perm.refl _) hpos hnodup).2.2.2 hnat2).1
      (by norm_num [specTotal, Obj.values])
  have hloop : LoopExact [("a", 100), ("c", 50)] 120 := by
    have := ((selectWinner_proportional_exact _ _ (List.Perm.refl _) hpos hnodup).2.2.2
      hnat2).2 120 (by norm_num)
    simpa using this
  refine ⟨hperm, hpos, hnodup, hsum1,
    (selectWinner_proportional_exact _ _ hperm hpos hnodup).1 hsum1, hloop, ?_⟩
  refine (((selectWinner_proportional_exact _ _ (List.Perm.refl _) hpos hnodup).2.1
    [("a", 100)] "c" 50 [] rfl).2.2 (3602879701896397 / 2 ^ 52) 120 hsum2
    (by rw [sample_total]; exact sample_position) (by norm_num)
    (by rw [sample_total]; norm_num) hloop).mpr ?_
  constructor
  · right
    norm_num [specTotal, Obj.values]
  · norm_num [specTotal, Obj.values]

/-- Claim C4 fails as stated.  The table `a: 0.7, b: 1.5, c: 0.7` has positive weights and
the same total `2.9000000000000004` in both listing orders; the draw `1 - 2 ^ -52` puts the
position at `2.9`, inside `[0, total)`.  Listed as `a, b, c` the loop returns no address at
that position, so the winning sets do not cover `[0, total)`; listed as `b, a, c` the same
position selects `c`, so the selection depends on the iteration order. -/
theorem selectWinner_order_dependent :
    ([("b", 3 / 2), ("a", double07), ("c", double07)] : Obj ℚ).Perm fractionalTickets
    ∧ totalTickets [("b", 3 / 2), ("a", double07), ("c", double07)] =
        totalTickets fractionalTickets
    ∧ roundDouble (lastDraw * totalTickets fractionalTickets) = 6530219459687219 / 2 ^ 51
    ∧ (0 : ℚ) ≤ 6530219459687219 / 2 ^ 51
    ∧ (6530219459687219 : ℚ) / 2 ^ 51 < totalTickets fractionalTickets
    ∧ selectWinner fractionalTickets lastDraw = none
    ∧ selectWinner [("b", 3 / 2), ("a", double07), ("c", double07)] lastDraw = some "c" := by
  refine ⟨List.Perm.swap _ _ _, ?_, ?_, by norm_num, ?_, fractional_select_none,
    fractional_select_bac⟩
  · rw [fractional_total.1, fractional_total.2]
  · rw [fractional_total.1, fractional_position]
  · rw [fractional_total.1]
    norm_num

/-! ## The sample round -/

theorem sample_tickets : calculateTickets sampleEnv.holders = [("a", 100), ("c", 50)] := by
  decide

theorem sample_selects : selectWinner [("a", 100), ("c", 50)] sampleEnv.rand = some "c" := by
  have hrand : sampleEnv.rand = 3602879701896397 / 2 ^ 52 := rfl
  have hne : ¬ ((150 : ℚ) = 0) := by norm_num
  have h1 : roundDouble ((120 : ℚ) - 100) = 20 := by
    have : ((120 : ℚ) - 100) = ((20 : ℕ) : ℚ) := by norm_num
    rw [this, roundDouble_natCast 20 (by norm_num)]
    norm_num
  have h2 : roundDouble ((20 : ℚ) - 50) = -30 := by
    have : ((20 : ℚ) - 50) = ((-30 : ℤ) : ℚ) := by norm_num
    rw [this, roundDouble_intCast (-30) (by norm_num) (by norm_num)]
    norm_num
  rw [selectWinner, sample_total, if_neg hne, hrand, sample_position,
    selectLoop_next _ _ _ _ (by rw [h1]; norm_num), h1,
    selectLoop_stop _ _ _ _ (by rw [h2]; norm_num)]

/-- A round with the holders and the draw of the sample round on the sample state runs
lines 316 to 344 for the winner `c`. -/
theorem sample_round (env : Env) (hh : env.holders = sampleEnv.holders)
    (hr : env.rand = sampleEnv.rand) (s : State) :
    distributeCrystalBall env s = awardBall env "c" s := by
  have hl : sampleEnv.holders.length ≠ 0 := by decide
  unfold distributeCrystalBall
  rw [hh, hr]
  simp [hl, sample_selects, sample_tickets, Obj.keys]

/-! ## The payout transaction -/

/-- A transaction that reaches `signTransaction` or `sendSignedTransaction` was built from a
non-zero balance and a gas price, and its value is the rounded prize amount minus the gas
cost, which is positive. -/
theorem sendTransaction_built (env : Env) (winner : Address) (f : ℚ) (tx : Transaction)
    (h : Effect.signTransaction tx ∈ (sendTransaction env winner f).2 ∨
      Effect.sendSignedTransaction tx ∈ (sendTransaction env winner f).2) :
    ∃ b g : ℕ, env.balance = some b ∧ b ≠ 0 ∧ env.gasPrice = some g ∧
      tx.value = mathRound (f * (b : ℚ)) - 21000 * (g : ℤ) ∧ 0 < tx.value ∧
      tx.gas = 21000 ∧ tx.gasPrice = g ∧ tx.chainId = 56 := by
  unfold sendTransaction at h
  cases hc : env.toChecksumAddress winner with
  | none => simp [hc] at h
  | some wc =>
    cases hb : env.balance with
    | none => simp [hc, hb] at h
    | some b =>
      by_cases hb0 : b = 0
      · simp [hc, hb, hb0] at h
      · cases hg : env.gasPrice with
        | none => simp [hc, hb, hb0, hg] at h
        | some g =>
          by_cases hv : mathRound (f * (b : ℚ)) ≤ 21000 * (g : ℤ)
          · simp [hc, hb, hb0, hg, hv] at h
          · cases hn : env.nonce with
            | none => simp [hc, hb, hb0, hg, hv, hn] at h
            | some n =>
              have hv' : 0 < mathRound (f * (b : ℚ)) - 21000 * (g : ℤ) := by omega
              refine ⟨b, g, rfl, hb0, rfl, ?_⟩
              cases hs : env.signOk <;> cases ht : env.transactionHash <;>
                simp [hc, hb, hb0, hg, hv, hn, hs, ht] at h <;> subst h <;> simp [hv']

/-- With a zero balance `sendTransaction` returns `null` after the balance query and the
zero-balance notice, or before them when the address is rejected. -/
theorem sendTransaction_zero_balance (env : Env) (winner : Address) (f : ℚ)
    (hb : env.balance = some 0) :
    (sendTransaction env winner f).1 = none ∧
      ∀ e ∈ (sendTransaction env winner f).2, e = Effect.getBalance ∨ e = Effect.sendMessage := by
  unfold sendTransaction
  cases hc : env.toChecksumAddress winner with
  | none => simp
  | some wc => simp [hb]

/-- With a net value `<= 0` `sendTransaction` returns `null` and goes no further than the
gas price query. -/
theorem sendTransaction_net_nonpositive (env : Env) (winner : Address) (f : ℚ) (b g : ℕ)
    (hb : env.balance = some b) (hg : env.gasPrice = some g)
    (hv : mathRound (f * (b : ℚ)) - 21000 * (g : ℤ) ≤ 0) :
    (sendTransaction env winner f).1 = none ∧
      ∀ e ∈ (sendTransaction env winner f).2,
        e = Effect.getBalance ∨ e = Effect.sendMessage ∨ e = Effect.getGasPrice := by
  have hv' : mathRound (f * (b : ℚ)) ≤ 21000 * (g : ℤ) := by omega
  unfold sendTransaction
  cases hc : env.toChecksumAddress winner with
  | none => simp
  | some wc =>
    by_cases hb0 : b = 0
    · simp [hb, hb0]
    · simp [hb, hb0, hg, hv']

/-- The rounded prize amount of a fraction below `1` does not exceed the balance. -/
theorem mathRound_le_balance (f : ℚ) (b : ℕ) (hf : f < 1) :
    mathRound (f * (b : ℚ)) ≤ (b : ℤ) := by
  have hb : (0 : ℚ) ≤ (b : ℚ) := Nat.cast_nonneg b
  have h1 : f * (b : ℚ) ≤ (b : ℚ) := by nlinarith
  have h2 : mathRound (f * (b : ℚ)) < (b : ℤ) + 1 := by
    unfold mathRound
    rw [Int.floor_lt]
    push_cast
    linarith
  omega

/-- In case 3 with a defined percentage, `sendAnnouncement` returns exactly when
`bot.sendPhoto` does. -/
theorem sendAnnouncement_three (ok : Bool) (winner : Address) (p : ℚ) (txId : Option String) :
    (sendAnnouncement ok winner 3 (some p) txId).1 = ok := by
  unfold sendAnnouncement
  cases txId with
  | none => simp
  | some h => by_cases hh : h = "" <;> simp [hh]

/-- A round whose selection returns a non-empty address runs lines 316 to 344 for it. -/
theorem distributeCrystalBall_of_selected (env : Env) (s : State) (winner : Address)
    (hsel : selectWinner (calculateTickets env.holders) env.rand = some winner)
    (hw : winner ≠ "")
    (hh : env.holders ≠ []) : distributeCrystalBall env s = awardBall env winner s := by
  have h1 : env.holders.length ≠ 0 := by
    intro h
    exact hh (List.length_eq_zero.mp h)
  have h2 : (Obj.keys (calculateTickets env.holders)).length ≠ 0 := by
    intro h
    have hnil : calculateTickets env.holders = [] := by
      simpa [Obj.keys] using h
    rw [hnil] at hsel
    simp [selectWinner] at hsel
  unfold distributeCrystalBall
  simp [h1, h2, hsel, hw]

/-- The history after lines 316 to 344 at the third ball: one record, with the percentage
rounded to two decimals, is appended when the announcement returns, none when it throws. -/
theorem awardBall_threshold_history (env : Env) (winner : Address) (s : State)
    (hc : orZero (Obj.get s.crystalBallWins winner) = 2) :
    (awardBall env winner s).1.winnersHistory =
      if env.sendPhotoOk then
        s.winnersHistory.map
          (fun history => history ++ [⟨winner, toFixed2 (env.prizeRand * (100 - 25) + 25)⟩])
      else s.winnersHistory := by
  unfold awardBall
  simp only [hc]
  cases hp : env.sendPhotoOk <;> cases hh : s.winnersHistory <;>
    simp [sendAnnouncement_three, hp, hh]

/-- The history after lines 316 to 344 below the third ball is the history before. -/
theorem awardBall_below_history (env : Env) (winner : Address) (s : State)
    (hc : orZero (Obj.get s.crystalBallWins winner) + 1 ≠ 3) :
    (awardBall env winner s).1.winnersHistory = s.winnersHistory := by
  unfold awardBall
  simp only [hc, if_false]
  split_ifs <;> simp

theorem toFixed2_sample : toFixed2 ((1 : ℚ) / 7 * (100 - 25) + 25) = 3571 / 100 := by
  have h : ⌊((1 : ℚ) / 7 * (100 - 25) + 25) * 100 + 1 / 2⌋ = 3571 := by
    rw [Int.floor_eq_iff]
    norm_num
  have hneg : ¬ ((1 : ℚ) / 7 * (100 - 25) + 25 < 0) := by norm_num
  rw [toFixed2, if_neg hneg, h]
  norm_num

/-! ## History records and the payout outcome -/

/-- Claim C5, as the code has it.  In a round that crosses the threshold (the selected
winner held two balls) the winner's ledger count is `0` afterwards, and the history after
the round is the history before it followed by the one record of the winner with the prize
percentage rounded to two decimals when the announcement was delivered, whether or not
`sendTransaction` returned a transaction id; it is the history before the round when the
announcement threw. -/
theorem winnersHistory_after_threshold (env : Env) (s : State) (winner : Address)
    (history : List WinnerRecord)
    (hh : env.holders ≠ [])
    (hsel : selectWinner (calculateTickets env.holders) env.rand = some winner)
    (hw : winner ≠ "")
    (hc : orZero (Obj.get s.crystalBallWins winner) = 2)
    (hhist : s.winnersHistory = some history) :
    Obj.get (distributeCrystalBall env s).1.crystalBallWins winner = some 0 ∧
      (distributeCrystalBall env s).1.winnersHistory =
        some (if env.sendPhotoOk then
          history ++ [⟨winner, toFixed2 (env.prizeRand * (100 - 25) + 25)⟩]
        else history) := by
  rw [distributeCrystalBall_of_selected env s winner hsel hw hh]
  constructor
  · rw [awardBall_crystalBallWins, Obj.get_set]
    simp [hc]
  · rw [awardBall_threshold_history env winner s hc, hhist]
    cases env.sendPhotoOk <;> simp

/-- The sample round: `c` held two balls, the payout is sent and announced, and the one
record of `c` with the percentage `50` is appended to the empty history. -/
theorem winnersHistory_after_threshold_witness :
    sampleEnv.holders ≠ [] ∧
      selectWinner (calculateTickets sampleEnv.holders) sampleEnv.rand = some "c" ∧
      orZero (Obj.get sampleState.crystalBallWins "c") = 2 ∧
      sampleState.winnersHistory = some [] ∧
      Obj.get (distributeCrystalBall sampleEnv sampleState).1.crystalBallWins "c" = some 0 ∧
      (distributeCrystalBall sampleEnv sampleState).1.winnersHistory =
        some (if sampleEnv.sendPhotoOk then
          [] ++ [⟨"c", toFixed2 (sampleEnv.prizeRand * (100 - 25) + 25)⟩]
        else []) :=
  ⟨by decide, by rw [sample_tickets]; exact sample_selects, by decide, rfl,
    winnersHistory_after_threshold sampleEnv sampleState "c" [] (by decide)
      (by rw [sample_tickets]; exact sample_selects) (by decide) (by decide) rfl⟩

/-- Claim C5 fails as stated.  On the sample state, where `c` holds two balls and is
selected: with an empty custodial wallet `sendTransaction` returns no transaction id, yet
the history, empty before the round, holds a record of `c` after it, with the percentage
`35.71` for the fraction `250 / 7` percent; and with a successful payout but a chat that
rejects the announcement, a transaction id is returned and no record is appended. -/
theorem winnersHistory_not_tied_to_payout :
    sampleState.winnersHistory = some [] ∧
      (sendTransaction zeroBalanceEnv "c"
        ((zeroBalanceEnv.prizeRand * (100 - 25) + 25) / 100)).1 = none ∧
      (distributeCrystalBall zeroBalanceEnv sampleState).1.winnersHistory =
        some [⟨"c", 3571 / 100⟩] ∧
      (sendTransaction silentChatEnv "c"
        ((silentChatEnv.prizeRand * (100 - 25) + 25) / 100)).1 = some "0xh" ∧
      (distributeCrystalBall silentChatEnv sampleState).1.winnersHistory = some [] := by
  refine ⟨rfl, ?_, ?_, ?_, ?_⟩
  · exact (sendTransaction_zero_balance zeroBalanceEnv "c" _ rfl).1
  · rw [sample_round zeroBalanceEnv rfl rfl,
      awardBall_threshold_history zeroBalanceEnv "c" sampleState (by decide)]
    have hp : zeroBalanceEnv.sendPhotoOk = true := rfl
    have hr : zeroBalanceEnv.prizeRand = 1 / 7 := rfl
    rw [hp, hr, toFixed2_sample]
    simp [sampleState]
  · norm_num [sendTransaction, silentChatEnv, sampleEnv, mathRound]
  · rw [sample_round silentChatEnv rfl rfl,
      awardBall_threshold_history silentChatEnv "c" sampleState (by decide)]
    have hp : silentChatEnv.sendPhotoOk = false := rfl
    rw [hp]
    simp [sampleState]

/-! ## Payout sizing -/

/-- Claim C6, as the code has it.  For a custodial balance `b`, a gas price `g` and a draw
`u` with `0 <= u < 1`, every transaction that `sendTransaction` builds for the fraction
`(75 u + 25) / 100` has the value `round (fraction * b) - 21000 * g`, and this value plus
the fee `21000 * g` is at most `b`: the value never exceeds the balance, and it is strictly
less than the balance whenever the gas price is positive. -/
theorem payout_within_balance (env : Env) (winner : Address) (u : ℚ) (b g : ℕ)
    (tx : Transaction) (hu0 : 0 ≤ u) (hu1 : u < 1)
    (hb : env.balance = some b) (hg : env.gasPrice = some g)
    (htx : Effect.signTransaction tx ∈
      (sendTransaction env winner ((u * (100 - 25) + 25) / 100)).2) :
    1 / 4 ≤ (u * (100 - 25) + 25) / 100 ∧ (u * (100 - 25) + 25) / 100 < 1 ∧
      tx.value = mathRound ((u * (100 - 25) + 25) / 100 * (b : ℚ)) - 21000 * (g : ℤ) ∧
      tx.value + 21000 * (g : ℤ) ≤ (b : ℤ) ∧
      tx.value ≤ (b : ℤ) ∧
      (0 < g → tx.value < (b : ℤ)) := by
  have hf0 : 1 / 4 ≤ (u * (100 - 25) + 25) / 100 := by linarith
  have hf1 : (u * (100 - 25) + 25) / 100 < 1 := by linarith
  obtain ⟨b', g', hb', _, hg', hval, _, _, _, _⟩ :=
    sendTransaction_built env winner _ tx (Or.inl htx)
  rw [hb] at hb'
  rw [hg] at hg'
  have hbb : b' = b := (Option.some.inj hb').symm
  have hgg : g' = g := (Option.some.inj hg').symm
  subst hbb
  subst hgg
  have hle := mathRound_le_balance _ b' hf1
  refine ⟨hf0, hf1, hval, by omega, by omega, ?_⟩
  intro hgpos
  omega

/-- The sample round: a balance of `10 ^ 18`, a gas price of `5 * 10 ^ 9` and the draw
`1 / 3` build a transaction of value `499895000000000000`, below the balance. -/
theorem payout_within_balance_witness :
    Effect.signTransaction ⟨"c", 499895000000000000, 21000, 5 * 10 ^ 9, 7, 56⟩ ∈
        (sendTransaction sampleEnv "c" (((1 : ℚ) / 3 * (100 - 25) + 25) / 100)).2 ∧
      (499895000000000000 : ℤ) ≤ ((10 ^ 18 : ℕ) : ℤ) :=
  have hmem : Effect.signTransaction ⟨"c", 499895000000000000, 21000, 5 * 10 ^ 9, 7, 56⟩ ∈
      (sendTransaction sampleEnv "c" (((1 : ℚ) / 3 * (100 - 25) + 25) / 100)).2 := by
    norm_num [sendTransaction, sampleEnv, mathRound]
  ⟨hmem,
    (payout_within_balance sampleEnv "c" (1 / 3) (10 ^ 18) (5 * 10 ^ 9) _
      (by norm_num) (by norm_num) rfl rfl hmem).2.2.2.2.1⟩

/-- Claim C6 fails as stated at gas price `0`.  With a balance of one native unit, gas price
`0` and the draw `1 / 3` (fraction `1 / 2`), `sendTransaction` builds a transaction whose
value is `round (1 / 2) - 0 = 1`, the whole balance, not strictly less. -/
theorem payout_value_equals_balance :
    dustEnv.balance = some 1 ∧ dustEnv.gasPrice = some 0 ∧
      Effect.signTransaction ⟨"c", 1, 21000, 0, 7, 56⟩ ∈
        (sendTransaction dustEnv "c" (((1 : ℚ) / 3 * (100 - 25) + 25) / 100)).2 ∧
      ¬ ((⟨"c", 1, 21000, 0, 7, 56⟩ : Transaction).value < 1) := by
  refine ⟨rfl, rfl, ?_, by decide⟩
  norm_num [sendTransaction, dustEnv, sampleEnv, mathRound]

/-! ## Aborted payouts -/

/-- Claim C7.  With a zero balance `sendTransaction` returns no transaction id and makes no
call beyond the balance query and the zero-balance notice (no gas price query, no nonce
query, no signing, no submission); with a net value `round (fraction * balance) -
21000 * gasPrice <= 0` it returns no transaction id and makes no call beyond the gas price
query; and every transaction it signs or submits carries a strictly positive value. -/
theorem sendTransaction_aborts (env : Env) (winner : Address) (prizePercentage : ℚ) :
    (env.balance = some 0 →
      (sendTransaction env winner prizePercentage).1 = none ∧
        ∀ e ∈ (sendTransaction env winner prizePercentage).2,
          e = Effect.getBalance ∨ e = Effect.sendMessage)
    ∧ (∀ b g : ℕ, env.balance = some b → env.gasPrice = some g →
        mathRound (prizePercentage * (b : ℚ)) - 21000 * (g : ℤ) ≤ 0 →
        (sendTransaction env winner prizePercentage).1 = none ∧
          ∀ e ∈ (sendTransaction env winner prizePercentage).2,
            e = Effect.getBalance ∨ e = Effect.sendMessage ∨ e = Effect.getGasPrice)
    ∧ (∀ tx, Effect.signTransaction tx ∈ (sendTransaction env winner prizePercentage).2 ∨
          Effect.sendSignedTransaction tx ∈ (sendTransaction env winner prizePercentage).2 →
        0 < tx.value) := by
  refine ⟨sendTransaction_zero_balance env winner prizePercentage, ?_, ?_⟩
  · intro b g hb hg hv
    exact sendTransaction_net_nonpositive env winner prizePercentage b g hb hg hv
  · intro tx htx
    obtain ⟨_, _, _, _, _, _, hpos, _⟩ := sendTransaction_built env winner _ tx htx
    exact hpos

/-- Scenario C: with an empty custodial wallet the trace of `sendTransaction` is the
balance query and the notice. -/
theorem sendTransaction_aborts_witness :
    zeroBalanceEnv.balance = some 0 ∧
      (sendTransaction zeroBalanceEnv "c" (1 / 2)).1 = none ∧
      (sendTransaction zeroBalanceEnv "c" (1 / 2)).2 =
        [Effect.getBalance, Effect.sendMessage] ∧
      ∀ e ∈ (sendTransaction zeroBalanceEnv "c" (1 / 2)).2,
        e = Effect.getBalance ∨ e = Effect.sendMessage :=
  ⟨rfl, ((sendTransaction_aborts zeroBalanceEnv "c" (1 / 2)).1 rfl).1,
    by simp [sendTransaction, zeroBalanceEnv, sampleEnv],
    ((sendTransaction_aborts zeroBalanceEnv "c" (1 / 2)).1 rfl).2⟩

/-! ## The blacklist at load -/

theorem Obj.get_delete {β : Type} (o : Obj β) (k a : Address) :
    Obj.get (Obj.delete o k) a = if a = k then none else Obj.get o a := by
  induction o with
  | nil => simp [Obj.delete, Obj.get]
  | cons e rest ih =>
    obtain ⟨k', v'⟩ := e
    by_cases hk : k' = k
    · by_cases h : a = k
      · subst h
        simp [Obj.delete, hk, ih]
      · have h2 : ¬ k = a := fun e => h e.symm
        simp [Obj.delete, Obj.get, hk, ih, h, h2]
    · by_cases h : a = k
      · subst h
        simp [Obj.delete, Obj.get, hk, ih]
      · by_cases h3 : k' = a
        · simp [Obj.delete, Obj.get, hk, h, h3]
        · simp [Obj.delete, Obj.get, hk, h, h3, ih]

theorem Obj.mem_keys_iff {β : Type} (o : Obj β) (a : Address) :
    a ∈ Obj.keys o ↔ Obj.get o a ≠ none := by
  induction o with
  | nil => simp [Obj.keys, Obj.get]
  | cons e rest ih =>
    obtain ⟨k', v'⟩ := e
    have hk : Obj.keys ((k', v') :: rest) = k' :: Obj.keys rest := rfl
    rw [hk, List.mem_cons, ih]
    by_cases h : k' = a
    · simp [Obj.get, h]
    · have h2 : ¬ a = k' := fun e => h e.symm
      simp [Obj.get, h, h2]

theorem filterBlacklistedAddresses_cons (x : Address) (rest : List Address) (wins : Obj ℤ) :
    filterBlacklistedAddresses (x :: rest) wins =
      filterBlacklistedAddresses rest
        (if truthyNum (Obj.get wins x) then Obj.delete wins x else wins) := rfl

/-- The filter only deletes: a read after it is `undefined` or what it was before. -/
theorem filterBlacklistedAddresses_get (blacklist : List Address) (wins : Obj ℤ)
    (a : Address) :
    Obj.get (filterBlacklistedAddresses blacklist wins) a = none ∨
      Obj.get (filterBlacklistedAddresses blacklist wins) a = Obj.get wins a := by
  induction blacklist generalizing wins with
  | nil => exact Or.inr rfl
  | cons x rest ih =>
    rw [filterBlacklistedAddresses_cons]
    by_cases ht : truthyNum (Obj.get wins x) = true
    · rw [if_pos ht]
      rcases ih (Obj.delete wins x) with h | h
      · exact Or.inl h
      · rw [Obj.get_delete] at h
        by_cases hax : a = x
        · left
          simpa [hax] using h
        · right
          simpa [hax] using h
    · rw [if_neg ht]
      exact ih wins

/-- What the filter does guarantee: after it, a blacklisted address is absent from the
ledger or stored with the count `0`. -/
theorem filterBlacklistedAddresses_falsy (blacklist : List Address) (wins : Obj ℤ)
    (a : Address) (ha : a ∈ blacklist) :
    truthyNum (Obj.get (filterBlacklistedAddresses blacklist wins) a) = false := by
  induction blacklist generalizing wins with
  | nil => simp at ha
  | cons x rest ih =>
    rw [filterBlacklistedAddresses_cons]
    by_cases hrest : a ∈ rest
    · exact ih _ hrest
    · have hax : a = x := by
        rcases List.mem_cons.mp ha with h | h
        · exact h
        · exact absurd h hrest
      subst hax
      by_cases ht : truthyNum (Obj.get wins a) = true
      · rw [if_pos ht]
        rcases filterBlacklistedAddresses_get rest (Obj.delete wins a) a with h | h
        · rw [h]
          rfl
        · rw [h, Obj.get_delete]
          simp [truthyNum]
      · rw [if_neg ht]
        rcases filterBlacklistedAddresses_get rest wins a with h | h
        · rw [h]
          rfl
        · rw [h]
          simpa using ht

/-- Claim C8 at the failing input.  The collection holds the one document of the
blacklisted address `0xbad` with the win count `0`: after `loadCrystalBallWins` the
address is still a key of the ledger, because the filter deletes an entry only when its
count is truthy; with the win count `1` the same address is removed. -/
theorem blacklisted_zero_count_survives_load :
    (loadCrystalBallWins ["0xbad"] (some [⟨"0xbad", 0, none⟩]) sampleState).crystalBallWins =
        [("0xbad", 0)] ∧
      "0xbad" ∈ Obj.keys
        (loadCrystalBallWins ["0xbad"] (some [⟨"0xbad", 0, none⟩]) sampleState).crystalBallWins ∧
      (loadCrystalBallWins ["0xbad"] (some [⟨"0xbad", 1, none⟩]) sampleState).crystalBallWins =
        [] := by
  decide

/-! ## Ticket allocation -/

theorem calculateTickets_snoc (holders : List Holder) (h : Holder) :
    calculateTickets (holders ++ [h]) =
      if h.balance ≤ 0 then calculateTickets holders
      else Obj.set (calculateTickets holders) h.address h.balance := by
  simp [calculateTickets, List.foldl_append]

/-- The read of an address in the table after one more holder. -/
theorem calculateTickets_get_snoc (holders : List Holder) (h : Holder) (a : Address) :
    Obj.get (calculateTickets (holders ++ [h])) a =
      if 0 < h.balance ∧ a = h.address then some h.balance
      else Obj.get (calculateTickets holders) a := by
  rw [calculateTickets_snoc]
  by_cases hb : h.balance ≤ 0
  · have hb' : ¬ 0 < h.balance := not_lt.mpr hb
    simp [hb, hb']
  · have hb' : 0 < h.balance := not_le.mp hb
    rw [if_neg hb, Obj.get_set]
    simp [hb']

theorem Obj.keys_set {β : Type} (o : Obj β) (k : Address) (v : β) :
    Obj.keys (Obj.set o k v) = if k ∈ Obj.keys o then Obj.keys o else Obj.keys o ++ [k] := by
  induction o with
  | nil => simp [Obj.set, Obj.keys]
  | cons e rest ih =>
    obtain ⟨k', v'⟩ := e
    have hk0 : ∀ l : Obj β, Obj.keys ((k', v') :: l) = k' :: Obj.keys l := fun _ => rfl
    by_cases hk : k' = k
    · subst hk
      simp [Obj.set, Obj.keys]
    · have hk2 : ¬ k = k' := fun e => hk e.symm
      simp only [Obj.set, hk, if_false, hk0, ih, List.mem_cons, hk2, false_or]
      split_ifs <;> simp

/-- The addresses of a ticket table are pairwise distinct. -/
theorem calculateTickets_nodup (holders : List Holder) :
    (Obj.keys (calculateTickets holders)).Nodup := by
  induction holders using List.reverseRecOn with
  | nil => simp [calculateTickets, Obj.keys]
  | append_singleton l h ih =>
    rw [calculateTickets_snoc]
    by_cases hb : h.balance ≤ 0
    · simpa [hb] using ih
    · rw [if_neg hb, Obj.keys_set]
      by_cases hm : h.address ∈ Obj.keys (calculateTickets l)
      · simpa [hm] using ih
      · rw [if_neg hm]
        exact List.Nodup.append ih (List.nodup_singleton _) (by simpa using hm)

/-- Every weight of a ticket table is positive. -/
theorem calculateTickets_pos (holders : List Holder) :
    ∀ e ∈ calculateTickets holders, 0 < e.2 := by
  induction holders using List.reverseRecOn with
  | nil => simp [calculateTickets]
  | append_singleton l h ih =>
    intro e he
    rw [calculateTickets_snoc] at he
    by_cases hb : h.balance ≤ 0
    · rw [if_pos hb] at he
      exact ih e he
    · rw [if_neg hb] at he
      rcases Obj.mem_set _ _ _ _ he with h' | h'
      · exact ih e h'
      · rw [h']
        exact not_le.mp hb

/-- An address has an entry in the table exactly when some holder entry of that address
has a positive balance. -/
theorem calculateTickets_get_ne_none (holders : List Holder) (a : Address) :
    Obj.get (calculateTickets holders) a ≠ none ↔
      ∃ h ∈ holders, h.address = a ∧ 0 < h.balance := by
  induction holders using List.reverseRecOn with
  | nil => simp [calculateTickets, Obj.get]
  | append_singleton l h ih =>
    rw [calculateTickets_get_snoc]
    by_cases hc : 0 < h.balance ∧ a = h.address
    · rw [if_pos hc]
      simp only [ne_eq, reduceCtorEq, not_false_eq_true, true_iff]
      exact ⟨h, by simp, hc.2.symm, hc.1⟩
    · rw [if_neg hc, ih]
      constructor
      · rintro ⟨h', hm, h1, h2⟩
        exact ⟨h', List.mem_append_left _ hm, h1, h2⟩
      · rintro ⟨h', hm, h1, h2⟩
        rcases List.mem_append.mp hm with hm' | hm'
        · exact ⟨h', hm', h1, h2⟩
        · have : h' = h := by simpa using hm'
          subst this
          exact absurd ⟨h2, h1.symm⟩ hc

/-- The weight of an address is the balance of its last holder entry with a positive
balance. -/
theorem calculateTickets_get_last (pre post : List Holder) (h : Holder)
    (hb : 0 < h.balance)
    (hpost : ∀ h' ∈ post, h'.address = h.address → h'.balance ≤ 0) :
    Obj.get (calculateTickets (pre ++ h :: post)) h.address = some h.balance := by
  induction post using List.reverseRecOn with
  | nil =>
    rw [calculateTickets_get_snoc]
    simp [hb]
  | append_singleton l h' ih =>
    have hl : pre ++ h :: (l ++ [h']) = (pre ++ h :: l) ++ [h'] := by simp
    rw [hl, calculateTickets_get_snoc]
    have hc : ¬ (0 < h'.balance ∧ h.address = h'.address) := by
      rintro ⟨h1, h2⟩
      have := hpost h' (by simp) h2.symm
      linarith
    rw [if_neg hc]
    exact ih (fun x hx => hpost x (List.mem_append_left _ hx))

/-- Claim C9.  For every sequence of holders: an address is a key of the table of
`calculateTickets` if and only if some holder entry of that address has a balance `> 0`;
its weight is exactly the balance of the last such entry, fractional or not; every weight
of the table is positive and the addresses are pairwise distinct; the empty sequence, and
any sequence without a positive balance, gives the empty table. -/
theorem calculateTickets_spec (holders : List Holder) :
    (∀ a, a ∈ Obj.keys (calculateTickets holders) ↔
        ∃ h ∈ holders, h.address = a ∧ 0 < h.balance)
    ∧ (∀ pre h post, holders = pre ++ h :: post → 0 < h.balance →
        (∀ h' ∈ post, h'.address = h.address → h'.balance ≤ 0) →
        Obj.get (calculateTickets holders) h.address = some h.balance ∧
          (h.address, h.balance) ∈ calculateTickets holders)
    ∧ (∀ e ∈ calculateTickets holders, 0 < e.2)
    ∧ (Obj.keys (calculateTickets holders)).Nodup
    ∧ calculateTickets [] = []
    ∧ ((∀ h ∈ holders, h.balance ≤ 0) → calculateTickets holders = []) := by
  refine ⟨?_, ?_, calculateTickets_pos holders, calculateTickets_nodup holders, rfl, ?_⟩
  · intro a
    rw [Obj.mem_keys_iff, calculateTickets_get_ne_none]
  · intro pre h post hsplit hb hpost
    subst hsplit
    have hg := calculateTickets_get_last pre post h hb hpost
    exact ⟨hg, Obj.get_mem _ _ _ hg⟩
  · intro hall
    have hk : ∀ a, a ∉ Obj.keys (calculateTickets holders) := by
      intro a ha
      rw [Obj.mem_keys_iff, calculateTickets_get_ne_none] at ha
      obtain ⟨h, hm, _, hpos⟩ := ha
      have := hall h hm
      linarith
    have hnil : Obj.keys (calculateTickets holders) = [] := List.eq_nil_iff_forall_not_mem.mpr hk
    simpa [Obj.keys] using hnil

/-- Scenario A with a repeated address: of the holders `a` (100), `b` (0), `c` (50) and `a`
again (1/2), `b` is dropped and `a` keeps its first position with its last balance. -/
theorem calculateTickets_spec_witness :
    calculateTickets [⟨"a", 100⟩, ⟨"b", 0⟩, ⟨"c", 50⟩, ⟨"a", 1 / 2⟩] =
        [("a", 1 / 2), ("c", 50)] ∧
      Obj.get (calculateTickets [⟨"a", 100⟩, ⟨"b", 0⟩, ⟨"c", 50⟩, ⟨"a", 1 / 2⟩]) "a" =
        some (1 / 2) ∧
      calculateTickets [⟨"b", 0⟩] = [] :=
  ⟨by norm_num [calculateTickets, Obj.set],
    ((calculateTickets_spec [⟨"a", 100⟩, ⟨"b", 0⟩, ⟨"c", 50⟩, ⟨"a", 1 / 2⟩]).2.1
      [⟨"a", 100⟩, ⟨"b", 0⟩, ⟨"c", 50⟩] ⟨"a", 1 / 2⟩ [] rfl (by norm_num) (by simp)).1,
    (calculateTickets_spec [⟨"b", 0⟩]).2.2.2.2.2 (by simp)⟩

/-! ## Selection from a table without tickets -/

/-- Claim C10, as the code has it.  When the weights of the table sum to exactly `0` (the
empty table and a table of zero weights included) `selectWinner` returns no address for
every draw; and a round whose table sums to `0` changes nothing and does nothing. -/
theorem selectWinner_zero_total (tickets : Obj ℚ) (rand : ℚ) (env : Env) (s : State)
    (h : totalTickets tickets = 0) :
    selectWinner tickets rand = none ∧
      (calculateTickets env.holders = tickets → distributeCrystalBall env s = (s, [])) := by
  have hsel : ∀ x, selectWinner tickets x = none := by
    intro x
    simp [selectWinner, h]
  refine ⟨hsel rand, ?_⟩
  intro ht
  rcases distributeCrystalBall_cases env s with hr | ⟨winner, _, hw, _, _⟩
  · exact hr
  · rw [ht, hsel] at hw
    exact absurd hw (by simp)

/-- A table of zero weights, and the empty table of a round whose only holder has no
tokens. -/
theorem selectWinner_zero_total_witness :
    totalTickets [("a", 0), ("b", 0)] = 0 ∧
      selectWinner [("a", 0), ("b", 0)] (1 / 2) = none ∧
      totalTickets [] = 0 ∧
      distributeCrystalBall { sampleEnv with holders := [⟨"b", 0⟩] } sampleState =
        (sampleState, []) :=
  ⟨by norm_num [totalTickets, Obj.values],
    (selectWinner_zero_total [("a", 0), ("b", 0)] (1 / 2) sampleEnv sampleState
      (by norm_num [totalTickets, Obj.values])).1,
    rfl,
    (selectWinner_zero_total [] (1 / 2) { sampleEnv with holders := [⟨"b", 0⟩] } sampleState
      rfl).2 (by decide)⟩

/-- Claim C10 fails as stated for a negative total.  The table `a: 1, b: -3` has the total
`-2`, and at the draw `1 / 2` `selectWinner` returns the address `a`; the table
`a: 0, b: -1`, with no positive weight at all, returns `a` at the draw `0`. -/
theorem selectWinner_negative_total :
    totalTickets [("a", 1), ("b", -3)] ≤ 0 ∧
      selectWinner [("a", 1), ("b", -3)] (1 / 2) = some "a" ∧
      totalTickets [("a", 0), ("b", -1)] ≤ 0 ∧
      selectWinner [("a", 0), ("b", -1)] 0 = some "a" := by
  have h1 : roundDouble (1 : ℚ) = 1 := by
    simpa using roundDouble_intCast 1 (by norm_num) (by norm_num)
  have hm1 : roundDouble (-1 : ℚ) = -1 := by
    simpa using roundDouble_intCast (-1) (by norm_num) (by norm_num)
  have hm2 : roundDouble (-2 : ℚ) = -2 := by
    simpa using roundDouble_intCast (-2) (by norm_num) (by norm_num)
  refine ⟨?_, ?_, ?_, ?_⟩ <;>
    norm_num [selectWinner, selectLoop, totalTickets, Obj.values, h1, hm1, hm2]

/-! ## The history across rounds -/

/-- The history after lines 316 to 344 is the history before, with at most one record
appended. -/
theorem awardBall_history_append (env : Env) (winner : Address) (s : State) :
    ∃ added : List WinnerRecord, added.length ≤ 1 ∧
      (awardBall env winner s).1.winnersHistory =
        s.winnersHistory.map (fun history => history ++ added) := by
  by_cases hc : orZero (Obj.get s.crystalBallWins winner) = 2
  · rw [awardBall_threshold_history env winner s hc]
    cases hp : env.sendPhotoOk
    · exact ⟨[], by simp, by cases s.winnersHistory <;> simp⟩
    · exact ⟨[⟨winner, toFixed2 (env.prizeRand * (100 - 25) + 25)⟩], by simp, by simp⟩
  · have h3 : orZero (Obj.get s.crystalBallWins winner) + 1 ≠ 3 := by omega
    rw [awardBall_below_history env winner s h3]
    exact ⟨[], by simp, by cases s.winnersHistory <;> simp⟩

/-- Claim C12.  For every state and every round of `distributeCrystalBall`, whatever the
holders, the draws and the payout outcome: the history after the round is the history
before it followed by at most one record, so the history before is a prefix of the history
after, every existing record keeps its address, percentage and position, and the length
grows by at most one. -/
theorem winnersHistory_append_only (env : Env) (s : State) :
    (∃ added : List WinnerRecord, added.length ≤ 1 ∧
      (distributeCrystalBall env s).1.winnersHistory =
        s.winnersHistory.map (fun history => history ++ added))
    ∧ (∀ history, s.winnersHistory = some history →
        ∃ after, (distributeCrystalBall env s).1.winnersHistory = some after ∧
          history <+: after ∧ after.length ≤ history.length + 1 ∧
          ∀ i (hi : i < history.length), after[i]? = some history[i]) := by
  have hmain : ∃ added : List WinnerRecord, added.length ≤ 1 ∧
      (distributeCrystalBall env s).1.winnersHistory =
        s.winnersHistory.map (fun history => history ++ added) := by
    rcases distributeCrystalBall_cases env s with hr | ⟨winner, _, _, _, hr⟩
    · rw [hr]
      exact ⟨[], by simp, by cases s.winnersHistory <;> simp⟩
    · rw [hr]
      exact awardBall_history_append env winner s
  refine ⟨hmain, ?_⟩
  intro history hh
  obtain ⟨added, hlen, heq⟩ := hmain
  rw [hh] at heq
  refine ⟨history ++ added, by simpa using heq, List.prefix_append _ _, ?_, ?_⟩
  · simp only [List.length_append]
    omega
  · intro i hi
    rw [List.getElem?_append_left hi, List.getElem?_eq_getElem hi]

/-- The sample round appends the one record of `c` to the empty history. -/
theorem winnersHistory_append_only_witness :
    sampleState.winnersHistory = some [] ∧
      ∃ after, (distributeCrystalBall sampleEnv sampleState).1.winnersHistory = some after ∧
        [] <+: after ∧ after.length ≤ ([] : List WinnerRecord).length + 1 ∧
        ∀ i (hi : i < ([] : List WinnerRecord).length),
          after[i]? = some ([] : List WinnerRecord)[i] :=
  ⟨rfl, (winnersHistory_append_only sampleEnv sampleState).2 [] rfl⟩

/-! ## Rounds without tickets -/

/-- Holders without a positive balance give the empty ticket table. -/
theorem calculateTickets_eq_nil (holders : List Holder) (hall : ∀ h ∈ holders, h.balance ≤ 0) :
    calculateTickets holders = [] := by
  have hk : ∀ a, a ∉ Obj.keys (calculateTickets holders) := by
    intro a ha
    rw [Obj.mem_keys_iff, calculateTickets_get_ne_none] at ha
    obtain ⟨h, hm, _, hpos⟩ := ha
    have := hall h hm
    linarith
  have hnil : Obj.keys (calculateTickets holders) = [] := List.eq_nil_iff_forall_not_mem.mpr hk
  simpa [Obj.keys] using hnil

/-- Claim C13.  For every holder list in which no holder has a positive balance, the empty
list included, `distributeCrystalBall` returns the state it was given (ledger, history,
prize percentage and collection unchanged) with an empty trace: no payout is attempted, no
announcement is sent and no save is performed. -/
theorem silent_abort (env : Env) (s : State) (hall : ∀ h ∈ env.holders, h.balance ≤ 0) :
    distributeCrystalBall env s = (s, []) ∧
      (distributeCrystalBall env s).1.crystalBallWins = s.crystalBallWins ∧
      (distributeCrystalBall env s).1.winnersHistory = s.winnersHistory ∧
      (distributeCrystalBall env s).1.collection = s.collection ∧
      (distributeCrystalBall env s).2 = [] := by
  have h : distributeCrystalBall env s = (s, []) := by
    rcases distributeCrystalBall_cases env s with hr | ⟨winner, _, hsel, _, _⟩
    · exact hr
    · rw [calculateTickets_eq_nil env.holders hall] at hsel
      simp [selectWinner] at hsel
  rw [h]
  exact ⟨rfl, rfl, rfl, rfl, rfl⟩

/-- Two rounds on the sample state: one whose holders `a` and `b` hold nothing, and one
whose holder list is empty. -/
theorem silent_abort_witness :
    (∀ h ∈ ({ sampleEnv with holders := [⟨"a", 0⟩, ⟨"b", 0⟩] } : Env).holders, h.balance ≤ 0) ∧
      distributeCrystalBall { sampleEnv with holders := [⟨"a", 0⟩, ⟨"b", 0⟩] } sampleState =
        (sampleState, []) ∧
      distributeCrystalBall { sampleEnv with holders := [] } sampleState = (sampleState, []) :=
  ⟨by decide,
    (silent_abort { sampleEnv with holders := [⟨"a", 0⟩, ⟨"b", 0⟩] } sampleState
      (by decide)).1,
    (silent_abort { sampleEnv with holders := [] } sampleState (by simp)).1⟩

/-! ## Save followed by load -/

theorem Obj.set_of_not_mem {β : Type} (o : Obj β) (k : Address) (v : β)
    (hk : k ∉ Obj.keys o) : Obj.set o k v = o ++ [(k, v)] := by
  induction o with
  | nil => rfl
  | cons e rest ih =>
    obtain ⟨k', v'⟩ := e
    have hne : ¬ k' = k := by
      intro h
      apply hk
      simp [Obj.keys, h]
    have hrest : k ∉ Obj.keys rest := by
      intro h
      apply hk
      simp only [Obj.keys] at h ⊢
      simp [h]
    simp [Obj.set, hne, ih hrest]

/-- The two components of the `forEach` of `loadCrystalBallWins`: the ledger is written
entry by entry, and the history collects the documents with a truthy percentage. -/
theorem loadItem_foldl (items : List Doc) (acc : Obj ℤ × List WinnerRecord) :
    items.foldl loadItem acc =
      (items.foldl (fun o d => Obj.set o d.address d.wins) acc.1,
        acc.2 ++ items.filterMap (fun d =>
          match d.percentage with
          | some p => if p ≠ 0 then some (⟨d.address, p⟩ : WinnerRecord) else none
          | none => none)) := by
  induction items generalizing acc with
  | nil => simp
  | cons d rest ih =>
    rw [List.foldl_cons, ih]
    cases hp : d.percentage with
    | none => simp [loadItem, hp]
    | some p =>
      by_cases h0 : p = 0
      · simp [loadItem, hp, h0]
      · simp [loadItem, hp, h0]

/-- Writing the saved documents of a ledger with distinct addresses, in order, into a
ledger that has none of them appends the ledger. -/
theorem saveData_foldl_set (wins : Obj ℤ) (history : List WinnerRecord) (acc : Obj ℤ)
    (hnodup : (Obj.keys wins).Nodup) (hdisj : ∀ k ∈ Obj.keys wins, k ∉ Obj.keys acc) :
    (saveData wins history).foldl (fun o d => Obj.set o d.address d.wins) acc = acc ++ wins := by
  induction wins generalizing acc with
  | nil => simp [saveData]
  | cons e rest ih =>
    obtain ⟨k, v⟩ := e
    have hkeys : Obj.keys ((k, v) :: rest) = k :: Obj.keys rest := rfl
    rw [hkeys] at hnodup hdisj
    have hk : k ∉ Obj.keys acc := hdisj k (List.mem_cons_self _ _)
    have hstep : saveData ((k, v) :: rest) history =
        { address := k, wins := v,
          percentage :=
            match history.find? (fun w => decide (w.winner = k)) with
            | some r => if r.percentage ≠ 0 then some r.percentage else none
            | none => none } :: saveData rest history := rfl
    rw [hstep, List.foldl_cons]
    simp only
    rw [Obj.set_of_not_mem acc k v hk, ih (acc ++ [(k, v)]) (List.nodup_cons.mp hnodup).2]
    · simp
    · intro k' hk' hmem
      have hd := hdisj k' (List.mem_cons_of_mem _ hk')
      have hne : k' ≠ k := by
        intro h
        rw [h] at hk'
        exact (List.nodup_cons.mp hnodup).1 hk'
      simp [Obj.keys] at hmem hd
      rcases hmem with ⟨x, hx⟩ | h
      · exact hd x hx
      · exact hne h

/-- The records that a load collects from the saved documents. -/
theorem saveData_filterMap (wins : Obj ℤ) (history : List WinnerRecord) :
    (saveData wins history).filterMap (fun d =>
        match d.percentage with
        | some p => if p ≠ 0 then some (⟨d.address, p⟩ : WinnerRecord) else none
        | none => none) = reloadedHistory wins history := by
  unfold saveData reloadedHistory
  rw [List.filterMap_map]
  apply List.filterMap_congr
  intro e _
  simp only [Function.comp]
  cases hf : history.find? (fun w => decide (w.winner = e.1)) with
  | none => rfl
  | some r =>
    by_cases h0 : r.percentage = 0
    · simp [h0]
    · simp [h0]

/-- A successful save followed by a successful load, on a state with an assigned history
and a ledger with distinct addresses. -/
theorem save_load (blacklist : List Address) (s : State) (history : List WinnerRecord)
    (hnodup : (Obj.keys s.crystalBallWins).Nodup) (hh : s.winnersHistory = some history) :
    (loadCrystalBallWins blacklist (some (saveCrystalBallWins SaveOutcome.ok s).collection)
        (saveCrystalBallWins SaveOutcome.ok s)).crystalBallWins =
      filterBlacklistedAddresses blacklist s.crystalBallWins ∧
    (loadCrystalBallWins blacklist (some (saveCrystalBallWins SaveOutcome.ok s).collection)
        (saveCrystalBallWins SaveOutcome.ok s)).winnersHistory =
      some (reloadedHistory s.crystalBallWins history) := by
  have hcol : (saveCrystalBallWins SaveOutcome.ok s).collection =
      saveData s.crystalBallWins history := by
    simp [saveCrystalBallWins, hh]
  rw [hcol]
  simp only [loadCrystalBallWins, loadItem_foldl, saveData_filterMap, List.nil_append]
  rw [saveData_foldl_set s.crystalBallWins history [] hnodup (by simp [Obj.keys])]
  simp

theorem reloadedHistory_cons (k : Address) (v : ℤ) (rest : Obj ℤ)
    (history : List WinnerRecord) :
    reloadedHistory ((k, v) :: rest) history =
      match history.find? (fun w => decide (w.winner = k)) with
      | some r =>
        if r.percentage ≠ 0 then ⟨k, r.percentage⟩ :: reloadedHistory rest history
        else reloadedHistory rest history
      | none => reloadedHistory rest history := by
  unfold reloadedHistory
  rw [List.filterMap_cons]
  cases hf : history.find? (fun w => decide (w.winner = k)) with
  | none => simp
  | some r => by_cases h0 : r.percentage = 0 <;> simp [h0]

/-- A history is rebuilt unchanged when its records are of distinct ledger addresses,
listed in ledger order, with non-zero percentages. -/
theorem reloadedHistory_eq_self (wins : Obj ℤ) (history : List WinnerRecord)
    (hnodup : (Obj.keys wins).Nodup)
    (hsub : (history.map (fun r => r.winner)).Sublist (Obj.keys wins))
    (hnz : ∀ r ∈ history, r.percentage ≠ 0) :
    reloadedHistory wins history = history := by
  induction wins generalizing history with
  | nil =>
    have : history = [] := by simpa [Obj.keys] using hsub
    rw [this]
    rfl
  | cons e rest ih =>
    obtain ⟨k, v⟩ := e
    have hkeys : Obj.keys ((k, v) :: rest) = k :: Obj.keys rest := rfl
    rw [hkeys] at hnodup hsub
    obtain ⟨hknot, hrest⟩ := List.nodup_cons.mp hnodup
    rw [reloadedHistory_cons]
    rcases List.sublist_cons_iff.mp hsub with h | ⟨t, ht, hts⟩
    · have hnone : history.find? (fun w => decide (w.winner = k)) = none := by
        rw [List.find?_eq_none]
        intro x hx hxk
        have hxk' : x.winner = k := by simpa using hxk
        apply hknot
        apply h.subset
        rw [← hxk']
        exact List.mem_map_of_mem _ hx
      rw [hnone]
      exact ih history hrest h hnz
    · cases history with
      | nil => simp at ht
      | cons r h' =>
        simp only [List.map_cons, List.cons.injEq] at ht
        obtain ⟨hrk, hmap⟩ := ht
        have hfind : (r :: h').find? (fun w => decide (w.winner = k)) = some r := by
          simp [hrk]
        have hr0 : r.percentage ≠ 0 := hnz r (List.mem_cons_self _ _)
        rw [hfind]
        simp only [hr0, ne_eq, not_false_eq_true, if_true]
        have hrec : (⟨k, r.percentage⟩ : WinnerRecord) = r := by
          cases r
          simp at hrk
          simp [hrk]
        have htail : reloadedHistory rest (r :: h') = reloadedHistory rest h' := by
          unfold reloadedHistory
          apply List.filterMap_congr
          intro e he
          have hne : ¬ r.winner = e.1 := by
            intro heq
            apply hknot
            rw [← hrk, heq]
            exact List.mem_map_of_mem _ he
          simp [hne]
        rw [hrec, htail, ih h' hrest (by rw [hmap]; exact hts)
          (fun x hx => hnz x (List.mem_cons_of_mem _ hx))]

/-- Claim C11, as the code has it.  On a state with an assigned history and a ledger with
distinct addresses, a successful `saveCrystalBallWins` followed by a successful
`loadCrystalBallWins` gives the ledger back, with `filterBlacklistedAddresses` applied.
The history it gives back holds, for every ledger address in ledger order, the first
history record of that address when its percentage is not zero; it is the history that was
saved when the records are of distinct ledger addresses, listed in ledger order, with
non-zero percentages. -/
theorem save_load_roundtrip (blacklist : List Address) (s : State)
    (history : List WinnerRecord)
    (hnodup : (Obj.keys s.crystalBallWins).Nodup) (hh : s.winnersHistory = some history) :
    (loadCrystalBallWins blacklist (some (saveCrystalBallWins SaveOutcome.ok s).collection)
        (saveCrystalBallWins SaveOutcome.ok s)).crystalBallWins =
      filterBlacklistedAddresses blacklist s.crystalBallWins
    ∧ (loadCrystalBallWins blacklist (some (saveCrystalBallWins SaveOutcome.ok s).collection)
        (saveCrystalBallWins SaveOutcome.ok s)).winnersHistory =
      some (reloadedHistory s.crystalBallWins history)
    ∧ ((history.map (fun r => r.winner)).Sublist (Obj.keys s.crystalBallWins) →
        (∀ r ∈ history, r.percentage ≠ 0) →
        (loadCrystalBallWins blacklist
          (some (saveCrystalBallWins SaveOutcome.ok s).collection)
          (saveCrystalBallWins SaveOutcome.ok s)).winnersHistory = some history) := by
  obtain ⟨h1, h2⟩ := save_load blacklist s history hnodup hh
  refine ⟨h1, h2, ?_⟩
  intro hsub hnz
  rw [h2, reloadedHistory_eq_self s.crystalBallWins history hnodup hsub hnz]

/-- The state after the sample round, in which `c` was paid: its ledger and its one-record
history come back unchanged from a save and a load without blacklist. -/
theorem save_load_roundtrip_witness :
    (Obj.keys ([("a", 1), ("c", 0)] : Obj ℤ)).Nodup ∧
      (loadCrystalBallWins []
        (some (saveCrystalBallWins SaveOutcome.ok
          ⟨[("a", 1), ("c", 0)], some [⟨"c", 50⟩], some 50, []⟩).collection)
        (saveCrystalBallWins SaveOutcome.ok
          ⟨[("a", 1), ("c", 0)], some [⟨"c", 50⟩], some 50, []⟩)).crystalBallWins =
        filterBlacklistedAddresses [] [("a", 1), ("c", 0)] ∧
      (loadCrystalBallWins []
        (some (saveCrystalBallWins SaveOutcome.ok
          ⟨[("a", 1), ("c", 0)], some [⟨"c", 50⟩], some 50, []⟩).collection)
        (saveCrystalBallWins SaveOutcome.ok
          ⟨[("a", 1), ("c", 0)], some [⟨"c", 50⟩], some 50, []⟩)).winnersHistory =
        some [⟨"c", 50⟩] :=
  ⟨by decide,
    (save_load_roundtrip [] ⟨[("a", 1), ("c", 0)], some [⟨"c", 50⟩], some 50, []⟩
      [⟨"c", 50⟩] (by decide) rfl).1,
    (save_load_roundtrip [] ⟨[("a", 1), ("c", 0)], some [⟨"c", 50⟩], some 50, []⟩
      [⟨"c", 50⟩] (by decide) rfl).2.2 (by decide) (by decide)⟩

/-- Claim C11 fails as stated.  The ledger holds `a` and `c`; the history holds, in this
order, a record of `c` (50), of `a` (30), a second record of `c` (40) and a record of `z`
(60), an address that is not in the ledger.  After a successful save and a successful
load without blacklist the ledger is the same, but the history is the record of `a` (30)
followed by the first record of `c` (50): the second record of `c` and the record of `z`
are gone and the order is the ledger's. -/
theorem save_load_loses_history :
    historyState.winnersHistory = some [⟨"c", 50⟩, ⟨"a", 30⟩, ⟨"c", 40⟩, ⟨"z", 60⟩] ∧
      (loadCrystalBallWins []
        (some (saveCrystalBallWins SaveOutcome.ok historyState).collection)
        (saveCrystalBallWins SaveOutcome.ok historyState)).crystalBallWins =
        historyState.crystalBallWins ∧
      (loadCrystalBallWins []
        (some (saveCrystalBallWins SaveOutcome.ok historyState).collection)
        (saveCrystalBallWins SaveOutcome.ok historyState)).winnersHistory =
        some [⟨"a", 30⟩, ⟨"c", 50⟩] ∧
      (loadCrystalBallWins []
        (some (saveCrystalBallWins SaveOutcome.ok historyState).collection)
        (saveCrystalBallWins SaveOutcome.ok historyState)).winnersHistory ≠
        historyState.winnersHistory := by
  decide

end Lakibot
